import Mathlib

/-!
Verification of the Exam Attempt Grading & Autosave Engine
(models/test/students_test_attempt.py, routes/students/test/test.py,
routes/coding/test_coding_question.py).

The embedding translates the Python source into Lean: Python floats are
modelled as exact rationals (ℚ), MongoDB documents as Lean structures,
queries as list lookups over an explicit `DB` value, and datetimes as ℕ
timestamps.  JSON payload values are modelled by the inductive `Json`.
Display-only fields (titles, descriptions, images, boilerplates) that no
grading rule reads are omitted from the document structures.
-/

namespace CpAdmin

/-- A JSON-ish Python value, as received in request payloads and stored in
`DictField` containers. -/
inductive Json where
  | null : Json
  | str : String → Json
  | num : ℚ → Json
  | bool : Bool → Json
  | arr : List Json → Json
  | obj : List (String × Json) → Json
deriving Repr

mutual

/-- Structural decidable equality for `Json` (the derive handler does not
support this nested inductive). -/
def Json.decEq : (a b : Json) → Decidable (a = b)
  | .null, .null => isTrue rfl
  | .str s, .str t =>
      if h : s = t then isTrue (by rw [h]) else isFalse (fun hc => h (Json.str.inj hc))
  | .num p, .num q =>
      if h : p = q then isTrue (by rw [h]) else isFalse (fun hc => h (Json.num.inj hc))
  | .bool p, .bool q =>
      if h : p = q then isTrue (by rw [h]) else isFalse (fun hc => h (Json.bool.inj hc))
  | .arr l, .arr m =>
      match Json.decEqList l m with
      | isTrue h => isTrue (by rw [h])
      | isFalse h => isFalse (fun hc => h (Json.arr.inj hc))
  | .obj l, .obj m =>
      match Json.decEqObj l m with
      | isTrue h => isTrue (by rw [h])
      | isFalse h => isFalse (fun hc => h (Json.obj.inj hc))
  | .null, .str _ => isFalse (fun hc => Json.noConfusion hc)
  | .null, .num _ => isFalse (fun hc => Json.noConfusion hc)
  | .null, .bool _ => isFalse (fun hc => Json.noConfusion hc)
  | .null, .arr _ => isFalse (fun hc => Json.noConfusion hc)
  | .null, .obj _ => isFalse (fun hc => Json.noConfusion hc)
  | .str _, .null => isFalse (fun hc => Json.noConfusion hc)
  | .str _, .num _ => isFalse (fun hc => Json.noConfusion hc)
  | .str _, .bool _ => isFalse (fun hc => Json.noConfusion hc)
  | .str _, .arr _ => isFalse (fun hc => Json.noConfusion hc)
  | .str _, .obj _ => isFalse (fun hc => Json.noConfusion hc)
  | .num _, .null => isFalse (fun hc => Json.noConfusion hc)
  | .num _, .str _ => isFalse (fun hc => Json.noConfusion hc)
  | .num _, .bool _ => isFalse (fun hc => Json.noConfusion hc)
  | .num _, .arr _ => isFalse (fun hc => Json.noConfusion hc)
  | .num _, .obj _ => isFalse (fun hc => Json.noConfusion hc)
  | .bool _, .null => isFalse (fun hc => Json.noConfusion hc)
  | .bool _, .str _ => isFalse (fun hc => Json.noConfusion hc)
  | .bool _, .num _ => isFalse (fun hc => Json.noConfusion hc)
  | .bool _, .arr _ => isFalse (fun hc => Json.noConfusion hc)
  | .bool _, .obj _ => isFalse (fun hc => Json.noConfusion hc)
  | .arr _, .null => isFalse (fun hc => Json.noConfusion hc)
  | .arr _, .str _ => isFalse (fun hc => Json.noConfusion hc)
  | .arr _, .num _ => isFalse (fun hc => Json.noConfusion hc)
  | .arr _, .bool _ => isFalse (fun hc => Json.noConfusion hc)
  | .arr _, .obj _ => isFalse (fun hc => Json.noConfusion hc)
  | .obj _, .null => isFalse (fun hc => Json.noConfusion hc)
  | .obj _, .str _ => isFalse (fun hc => Json.noConfusion hc)
  | .obj _, .num _ => isFalse (fun hc => Json.noConfusion hc)
  | .obj _, .bool _ => isFalse (fun hc => Json.noConfusion hc)
  | .obj _, .arr _ => isFalse (fun hc => Json.noConfusion hc)

/-- Decidable equality for lists of `Json`. -/
def Json.decEqList : (l m : List Json) → Decidable (l = m)
  | [], [] => isTrue rfl
  | [], _ :: _ => isFalse (fun hc => List.noConfusion hc)
  | _ :: _, [] => isFalse (fun hc => List.noConfusion hc)
  | a :: l, b :: m =>
      match Json.decEq a b with
      | isFalse h => isFalse (fun hc => h (List.cons.inj hc).1)
      | isTrue h1 =>
        match Json.decEqList l m with
        | isTrue h2 => isTrue (by rw [h1, h2])
        | isFalse h => isFalse (fun hc => h (List.cons.inj hc).2)

/-- Decidable equality for association lists of `Json`. -/
def Json.decEqObj : (l m : List (String × Json)) → Decidable (l = m)
  | [], [] => isTrue rfl
  | [], _ :: _ => isFalse (fun hc => List.noConfusion hc)
  | _ :: _, [] => isFalse (fun hc => List.noConfusion hc)
  | (k, a) :: l, (k', b) :: m =>
      if hk : k = k' then
        match Json.decEq a b with
        | isFalse h =>
            isFalse (fun hc => h (congrArg Prod.snd (List.cons.inj hc).1))
        | isTrue h1 =>
          match Json.decEqObj l m with
          | isTrue h2 => isTrue (by rw [hk, h1, h2])
          | isFalse h => isFalse (fun hc => h (List.cons.inj hc).2)
      else
        isFalse (fun hc => hk (congrArg Prod.fst (List.cons.inj hc).1))

end

instance : DecidableEq Json := Json.decEq

/-- Python truthiness of a JSON value (`bool(v)`). -/
def Json.truthy : Json → Bool
  | .null => false
  | .str s => !(s == "")
  | .num q => !(q == 0)
  | .bool b => b
  | .arr l => !l.isEmpty
  | .obj d => !d.isEmpty

/-- `d.get(k)` on a Python dict (first binding wins, as dict keys are unique). -/
def Json.getKey (d : List (String × Json)) (k : String) : Option Json :=
  (d.find? (fun p => p.1 == k)).map (·.2)

/-- `str(x)` for the values that can appear in a submission-id list.  Strings
map to themselves (the only case the application ever produces); scalar reprs
follow Python; the repr of composite values is collapsed to a constant, which
is grading-equivalent because such strings never match a stored document id. -/
def pyStr : Json → String
  | .str s => s
  | .bool true => "True"
  | .bool false => "False"
  | .null => "None"
  | .num q => toString q
  | .arr _ => "[pyrepr]"
  | .obj _ => "{pyrepr}"

/-- Python `set()` raises `TypeError` on unhashable elements (lists, dicts). -/
def Json.unhashable : Json → Bool
  | .arr _ => true
  | .obj _ => true
  | _ => false

/-- `set(v)`: build the set of elements of an iterable value; `none` models a
raised `TypeError` (non-iterable argument or unhashable element).  Iterating a
string yields its characters, iterating a dict yields its keys. -/
def pySet (v : Json) : Option (Finset Json) :=
  match v with
  | .arr l => if l.any Json.unhashable then none else some l.toFinset
  | .str s => some ((s.data.map (fun c => Json.str (String.mk [c]))).toFinset)
  | .obj d => some ((d.map (fun p => Json.str p.1)).toFinset)
  | _ => none

/-- `list(v)` on an iterable value; `none` models a raised `TypeError`. -/
def pyList (v : Json) : Option (List Json) :=
  match v with
  | .arr l => some l
  | .str s => some (s.data.map (fun c => Json.str (String.mk [c])))
  | .obj d => some (d.map (fun p => Json.str p.1))
  | _ => none

/-! ## Question documents (models/questions/mcq.py, coding.py, rearrange.py;
rearrange field names follow their access sites in students_test_attempt.py). -/

/-- `TestMCQ` document, scoring-relevant fields. -/
structure MCQRef where
  id : String
  is_multiple : Bool
  marks : ℚ
  negative_marks : ℚ
  correct_options : List String
deriving DecidableEq, Repr

/-- `TestQuestion` coding document, scoring-relevant fields (`points` is the
marks budget; snapshots read it as `marks`). -/
structure CodingRef where
  id : String
  points : ℚ
deriving DecidableEq, Repr

/-- `TestRearrange` document, scoring-relevant fields. -/
structure RearrangeRef where
  id : String
  marks : ℚ
  correct_order : List String
deriving DecidableEq, Repr

/-- `Submission` document (models/questions/coding.py).  `total_score` is
`Option` so that an explicitly-null field (Python `None`) is representable;
`case_results` is projected to the list of per-case `points_awarded`. -/
structure Submission where
  id : String
  question_id : String
  user_id : String
  total_score : Option ℤ
  case_results : List ℤ
  created_at : ℕ
  updated_at : ℕ
deriving DecidableEq, Repr

/-! ## Type graders (StudentTestAttempt._grade_mcq / _grade_rearrange) -/

/-- `StudentTestAttempt._grade_mcq`.  `selectedOptionIds` is the raw Python
value passed by the caller; `set(selected_option_ids or [])` is `pySet` after
the truthiness guard, and a `TypeError` (unhashable element / non-iterable)
is swallowed by the `except` clause, returning 0. -/
def gradeMCQ (mcq : MCQRef) (selectedOptionIds : Json) : ℚ :=
  match pySet (if selectedOptionIds.truthy then selectedOptionIds else .arr []) with
  | none => 0
  | some selected =>
    let correct : Finset Json := (mcq.correct_options.map Json.str).toFinset
    if !mcq.is_multiple then
      -- single-choice: full marks iff exactly one selected and it is correct
      if selected.card = 1 ∧ selected ⊆ correct then mcq.marks else 0
    else
      if correct = ∅ then 0
      else
        let correct_selected := selected ∩ correct
        let incorrect_selected := selected \ correct
        let ratio : ℚ := (correct_selected.card : ℚ) / (correct.card : ℚ)
        let score := mcq.marks * ratio - mcq.negative_marks * (incorrect_selected.card : ℚ)
        -- sequential clamp: `if score < 0` then `if score > marks`
        min (max score 0) mcq.marks

/-- `StudentTestAttempt._grade_rearrange`: exact match of the first
`len(correct_order)` submitted items; empty correct order yields 0. -/
def gradeRearrange (rearr : RearrangeRef) (studentOrder : Json) : ℚ :=
  if rearr.correct_order = [] then 0
  else
    match pyList (if studentOrder.truthy then studentOrder else .arr []) with
    | none => 0
    | some student =>
      let student := student.take rearr.correct_order.length
      if student = rearr.correct_order.map Json.str then rearr.marks else 0

/-! ## Coding-result grading during autosave
(students_test_attempt.py lines 464-477). -/

/-- `sub_ids = store_value.get("value") or []; sub_ids = [str(x) for x in
sub_ids if x]`.  `none` models the `TypeError` of iterating a non-iterable,
which the surrounding `except` turns into `marks_awarded = None`. -/
def subIdsOfValue (storeVal : Json) : Option (List String) :=
  match pyList (if storeVal.truthy then storeVal else .arr []) with
  | none => none
  | some l => some ((l.filter Json.truthy).map pyStr)

/-- Sort key `(float(total_score), updated_at)`; strict lexicographic
"greater than" used by Python `max` to replace the current best. -/
def subKeyGT (t b : Submission) : Bool :=
  t.total_score.getD 0 > b.total_score.getD 0 ∨
    (t.total_score.getD 0 = b.total_score.getD 0 ∧ t.updated_at > b.updated_at)

/-- `max(subs, key=lambda s: (float(s.total_score), s.updated_at))`:
first maximal element wins ties. -/
def pickBest (s : Submission) (rest : List Submission) : Submission :=
  rest.foldl (fun b t => if subKeyGT t b then t else b) s

/-- Autosave coding grading: resolve `Submission.objects(id__in=sub_ids)`
(no user or question filter), take the best by `(total_score, updated_at)`,
return its `total_score`.  `float(None)` raises inside the `try`, so a null
`total_score` on any resolved submission yields `none`. -/
def codingAutosaveGrade (subsDB : List Submission) (storeVal : Json) : Option ℚ :=
  match subIdsOfValue storeVal with
  | none => none
  | some subIds =>
    if subIds.isEmpty then none
    else
      let subs := subsDB.filter (fun s => subIds.contains s.id)
      match subs with
      | [] => none
      | s :: rest =>
        if (s :: rest).any (fun t => t.total_score.isNone) then none
        else
          let best := pickBest s rest
          some ((best.total_score.getD 0 : ℤ) : ℚ)

/-- Modelled from the spec (§4.3 Coding-result grader), for comparison with
`codingAutosaveGrade`: "resolve all submissions for the given ids belonging
to the user/question, compute each submission's effective score (prefer
stored `total_score`; else sum of per-case `points_awarded`), select the
submission with the highest effective score, tie-break by most recent;
return its score, or null if no submissions resolve." -/
def specCodingResultGrader (subsDB : List Submission) (userId questionId : String)
    (subIds : List String) : Option ℚ :=
  let eff : Submission → ℤ := fun s => s.total_score.getD s.case_results.sum
  let subs := subsDB.filter
    (fun s => subIds.contains s.id && s.user_id == userId && s.question_id == questionId)
  match subs with
  | [] => none
  | s :: rest =>
    let best := rest.foldl
      (fun b t =>
        if eff t > eff b ∨ (eff t = eff b ∧ t.updated_at > b.updated_at) then t else b) s
    some ((eff best : ℤ) : ℚ)


/-! ## Sections and tests (models/test/section.py, models/test/test.py) -/

/-- `SectionQuestion` embedded wrapper: a type tag plus three refs, at most
one expected non-null. -/
structure SectQuestion where
  question_type : String
  mcq_ref : Option MCQRef
  coding_ref : Option CodingRef
  rearrange_ref : Option RearrangeRef
deriving DecidableEq, Repr

/-- `Section` document, fields read by the autosave engine. -/
structure Section where
  id : String
  name : String
  duration : ℕ
  time_restricted : Bool
  questions : List SectQuestion
deriving DecidableEq, Repr

/-- `Test` document, fields read by the autosave engine. -/
structure Test where
  id : String
  sections_time_restricted : List Section
  sections_open : List Section
deriving DecidableEq, Repr

/-- The document store, as visible to the engine's queries. -/
structure DB where
  tests : List Test
  sections : List Section
  mcqs : List MCQRef
  codings : List CodingRef
  rearranges : List RearrangeRef
  submissions : List Submission
deriving Repr

/-! ## Attempt documents (models/test/students_test_attempt.py) -/

/-- `MCQSnapshot`, scoring-relevant fields. -/
structure MCQSnapshot where
  question_id : String
  is_multiple : Bool
  marks : ℚ
  negative_marks : ℚ
  correct_options : List String
deriving DecidableEq, Repr

/-- `CodingSnapshot`, scoring-relevant fields (`marks` is copied from the
question's `points`). -/
structure CodingSnapshot where
  question_id : String
  marks : ℚ
deriving DecidableEq, Repr

/-- `RearrangeSnapshot`, scoring-relevant fields. -/
structure RearrangeSnapshot where
  question_id : String
  marks : ℚ
  correct_order : List String
deriving DecidableEq, Repr

/-- `StudentAnswer` embedded document.  `value` is the Json stored under the
`"value"` key of the `DictField` container. -/
structure StudentAnswer where
  question_id : String
  question_type : String
  value : Json
  snapshot_mcq : Option MCQSnapshot
  snapshot_coding : Option CodingSnapshot
  snapshot_rearrange : Option RearrangeSnapshot
  marks_obtained : Option ℚ
deriving DecidableEq, Repr

/-- `SectionAnswers` embedded document. -/
structure SectionAnswers where
  section_id : String
  section_name : Option String
  section_duration : ℕ
  answers : List StudentAnswer
  section_max_marks : ℚ
  section_total_marks : ℚ
deriving DecidableEq, Repr

/-- `StudentTestAttempt` document; datetimes are ℕ timestamps. -/
structure Attempt where
  student_id : String
  test_id : String
  start_time : Option ℕ
  timed_section_answers : List SectionAnswers
  open_section_answers : List SectionAnswers
  total_marks : ℚ
  tab_switches_count : ℕ
  fullscreen_violated : Bool
  max_marks : ℚ
  last_autosave : Option ℕ
  submitted : Bool
  submitted_at : Option ℕ
deriving DecidableEq, Repr

/-! ## Aggregators (total_marks_obtained / max_marks_possible) -/

/-- Sum of non-null `marks_obtained` over one section list. -/
def sumMarksObtained (l : List SectionAnswers) : ℚ :=
  (l.map (fun sec => ((sec.answers.filterMap (·.marks_obtained)).sum))).sum

/-- `StudentTestAttempt.total_marks_obtained`. -/
def totalMarksObtained (a : Attempt) : ℚ :=
  sumMarksObtained a.timed_section_answers + sumMarksObtained a.open_section_answers

/-- Snapshot marks of one answer: `if snapshot_mcq: ... elif snapshot_coding:
... elif snapshot_rearrange: ...` -/
def answerSnapMarks (ans : StudentAnswer) : ℚ :=
  match ans.snapshot_mcq with
  | some s => s.marks
  | none =>
    match ans.snapshot_coding with
    | some s => s.marks
    | none =>
      match ans.snapshot_rearrange with
      | some s => s.marks
      | none => 0

/-- Sum of snapshot marks over one section list. -/
def sumSnapMarks (l : List SectionAnswers) : ℚ :=
  (l.map (fun sec => (sec.answers.map answerSnapMarks).sum)).sum

/-- `StudentTestAttempt.max_marks_possible`. -/
def maxMarksPossible (a : Attempt) : ℚ :=
  sumSnapMarks a.timed_section_answers + sumSnapMarks a.open_section_answers

/-! ## Answer normalizers (save_autosave, per-type `store_value` blocks) -/

/-- MCQ branch: the value stored under `store_value["value"]`.  Note the
final `else` stores a non-null unrecognized value as-is. -/
def normalizeMCQValue (raw : Option Json) : Json :=
  match raw with
  | some (Json.arr l) => Json.arr l
  | some (Json.obj d) =>
    match Json.getKey d "value" with
    | some v => if v.truthy then v else Json.arr []
    | none => Json.obj d
  | some (Json.str s) => Json.arr [Json.str s]
  | some v => v
  | none => Json.arr []

/-- Coding branch: `value`, then `submission_ids`, else the dict itself;
non-dict unrecognized shapes yield `[]`. -/
def normalizeCodingValue (raw : Option Json) : Json :=
  match raw with
  | some (Json.arr l) => Json.arr l
  | some (Json.obj d) =>
    match Json.getKey d "value" with
    | some v => if v.truthy then v else Json.arr []
    | none =>
      match Json.getKey d "submission_ids" with
      | some v => if v.truthy then v else Json.arr []
      | none => Json.obj d
  | some (Json.str s) => Json.arr [Json.str s]
  | some _ => Json.arr []
  | none => Json.arr []

/-- Rearrange branch: a dict's `value` is kept if a list, `[]` if null, and
wrapped in a singleton otherwise; all other unrecognized shapes yield `[]`. -/
def normalizeRearrangeValue (raw : Option Json) : Json :=
  match raw with
  | some (Json.arr l) => Json.arr l
  | some (Json.obj d) =>
    match Json.getKey d "value" with
    | some (Json.arr l) => Json.arr l
    | some Json.null => Json.arr []
    | some v => Json.arr [v]
    | none => Json.arr []
  | some (Json.str s) => Json.arr [Json.str s]
  | some _ => Json.arr []
  | none => Json.arr []

/-- MCQ grading-input extraction (save_autosave lines 393-399): the
`selected` value handed to `_grade_mcq` when `raw_value is not None`. -/
def mcqSelectedOf (raw : Json) : Json :=
  match raw with
  | Json.arr l => Json.arr l
  | Json.obj d =>
    match Json.getKey d "value" with
    | some v => if v.truthy then v else Json.arr []
    | none => Json.arr []
  | Json.str s => Json.arr [Json.str s]
  | _ => Json.arr []

/-! ## Autosave orchestrator (StudentTestAttempt.save_autosave) -/

/-- One question's incoming payload `{'value': ..., 'qwell': ...}`. -/
structure QPayload where
  value : Option Json
  qwell : Option String
  question_type : Option String
deriving DecidableEq, Repr

/-- `answers_dict`: `{section_id: {question_id: payload}}` as insertion-ordered
association lists (Python dict keys are unique). -/
abbrev AnswersDict := List (String × List (String × QPayload))

/-- First-match association lookup (`next(...)`/dict access). -/
def lookupA {α : Type} (m : List (String × α)) (k : String) : Option α :=
  (m.find? (fun p => p.1 == k)).map (·.2)

/-- `payload.get("qwell") or payload.get("question_type") or "unknown"`
with Python falsy-string fallthrough. -/
def qwellOf (p : QPayload) : String :=
  match p.qwell with
  | some s =>
    if s ≠ "" then s
    else match p.question_type with
         | some t => if t ≠ "" then t else "unknown"
         | none => "unknown"
  | none =>
    match p.question_type with
    | some t => if t ≠ "" then t else "unknown"
    | none => "unknown"

/-- Resolve an MCQ reference: first matching wrapper in the section's
questions, else a direct `MCQModel.objects(id=qid)` fetch. -/
def resolveMCQ (db : DB) (sec : Option Section) (qid : String) : Option MCQRef :=
  let fromSec := sec.bind fun s =>
    (s.questions.find? (fun sq =>
      sq.question_type == "mcq" &&
        (match sq.mcq_ref with | some m => m.id == qid | none => false))).bind (·.mcq_ref)
  match fromSec with
  | some m => some m
  | none => db.mcqs.find? (fun m => m.id == qid)

/-- Resolve a coding reference, section first, then the store. -/
def resolveCoding (db : DB) (sec : Option Section) (qid : String) : Option CodingRef :=
  let fromSec := sec.bind fun s =>
    (s.questions.find? (fun sq =>
      sq.question_type == "coding" &&
        (match sq.coding_ref with | some c => c.id == qid | none => false))).bind (·.coding_ref)
  match fromSec with
  | some c => some c
  | none => db.codings.find? (fun c => c.id == qid)

/-- Resolve a rearrange reference, section first, then the store. -/
def resolveRearrange (db : DB) (sec : Option Section) (qid : String) : Option RearrangeRef :=
  let fromSec := sec.bind fun s =>
    (s.questions.find? (fun sq =>
      sq.question_type == "rearrange" &&
        (match sq.rearrange_ref with | some r => r.id == qid | none => false))).bind (·.rearrange_ref)
  match fromSec with
  | some r => some r
  | none => db.rearranges.find? (fun r => r.id == qid)

/-- Snapshot Builder, MCQ. -/
def snapOfMCQ (m : MCQRef) : MCQSnapshot :=
  ⟨m.id, m.is_multiple, m.marks, m.negative_marks, m.correct_options⟩

/-- Snapshot Builder, coding (`marks := float(getattr(coding_ref, "points", 0.0))`). -/
def snapOfCoding (c : CodingRef) : CodingSnapshot := ⟨c.id, c.points⟩

/-- Snapshot Builder, rearrange. -/
def snapOfRearrange (r : RearrangeRef) : RearrangeSnapshot := ⟨r.id, r.marks, r.correct_order⟩

/-- The payload used for question `qid`: `incoming_map.get(qid, {}) or {}`. -/
def qPayloadOf (incoming : List (String × QPayload)) (qid : String) : QPayload :=
  (lookupA incoming qid).getD ⟨none, none, none⟩

/-- The `store_value["value"]` computed for one `(question_id, qwell)` entry. -/
def qStoreVal (incoming : List (String × QPayload)) (q : String × String) : Json :=
  let raw := (qPayloadOf incoming q.1).value
  if q.2 == "mcq" then normalizeMCQValue raw
  else if q.2 == "coding" then normalizeCodingValue raw
  else if q.2 == "rearrange" then normalizeRearrangeValue raw
  else match raw with
       | some v => v
       | none => Json.null

/-- The `marks_awarded` computed for one `(question_id, qwell)` entry
(`None` when there is no usable input or no resolved reference). -/
def qMarks (db : DB) (sec : Option Section) (incoming : List (String × QPayload))
    (q : String × String) : Option ℚ :=
  let raw := (qPayloadOf incoming q.1).value
  if q.2 == "mcq" then
    match resolveMCQ db sec q.1, raw with
    | some m, some rv => some (gradeMCQ m (mcqSelectedOf rv))
    | _, _ => none
  else if q.2 == "coding" then
    match resolveCoding db sec q.1 with
    | some _ => codingAutosaveGrade db.submissions (normalizeCodingValue raw)
    | none => none
  else if q.2 == "rearrange" then
    match resolveRearrange db sec q.1, raw with
    | some r, some _ => some (gradeRearrange r (normalizeRearrangeValue raw))
    | _, _ => none
  else none

/-- Update of an existing `StudentAnswer` for one entry: overwrite `value`
and the branch's snapshot (rearrange only when a snapshot was built), and
overwrite `marks_obtained` only when grading produced a value. -/
def updAnswer (db : DB) (sec : Option Section) (incoming : List (String × QPayload))
    (q : String × String) (a : StudentAnswer) : StudentAnswer :=
  let sv := qStoreVal incoming q
  let m? := qMarks db sec incoming q
  let newMarks := match m? with
    | some m => some m
    | none => a.marks_obtained
  if q.2 == "mcq" then
    { a with value := sv, snapshot_mcq := (resolveMCQ db sec q.1).map snapOfMCQ,
             marks_obtained := newMarks }
  else if q.2 == "coding" then
    { a with value := sv, snapshot_coding := (resolveCoding db sec q.1).map snapOfCoding,
             marks_obtained := newMarks }
  else if q.2 == "rearrange" then
    { a with value := sv,
             snapshot_rearrange :=
               match (resolveRearrange db sec q.1).map snapOfRearrange with
               | some s => some s
               | none => a.snapshot_rearrange,
             marks_obtained := newMarks }
  else
    { a with value := sv }

/-- The fresh `StudentAnswer` appended when the question had no record yet. -/
def freshAnswer (db : DB) (sec : Option Section) (incoming : List (String × QPayload))
    (q : String × String) : StudentAnswer :=
  let sv := qStoreVal incoming q
  let m? := qMarks db sec incoming q
  if q.2 == "mcq" then
    { question_id := q.1, question_type := "mcq", value := sv,
      snapshot_mcq := (resolveMCQ db sec q.1).map snapOfMCQ,
      snapshot_coding := none, snapshot_rearrange := none, marks_obtained := m? }
  else if q.2 == "coding" then
    { question_id := q.1, question_type := "coding", value := sv,
      snapshot_mcq := none,
      snapshot_coding := (resolveCoding db sec q.1).map snapOfCoding,
      snapshot_rearrange := none, marks_obtained := m? }
  else if q.2 == "rearrange" then
    { question_id := q.1, question_type := "rearrange", value := sv,
      snapshot_mcq := none, snapshot_coding := none,
      snapshot_rearrange := (resolveRearrange db sec q.1).map snapOfRearrange,
      marks_obtained := m? }
  else
    { question_id := q.1, question_type := if q.2 ≠ "" then q.2 else "unknown",
      value := sv, snapshot_mcq := none, snapshot_coding := none,
      snapshot_rearrange := none, marks_obtained := none }

/-- First element with the given key (`next((x for x in l if key x == k), None)`). -/
def findByKey {α : Type} (key : α → String) (k : String) (l : List α) : Option α :=
  l.find? (fun x => key x == k)

/-- In-place mutation of the first element with the given key. -/
def replaceByKey {α : Type} (key : α → String) (k : String) (f : α → α) :
    List α → List α
  | [] => []
  | x :: xs => if key x == k then f x :: xs else x :: replaceByKey key k f xs

/-- Find-or-create followed by in-place mutation: mutate the first match if
present, otherwise append the given fresh record. -/
def upsertByKey {α : Type} (key : α → String) (k : String) (f : α → α)
    (fresh : α) (l : List α) : List α :=
  match findByKey key k l with
  | some _ => replaceByKey key k f l
  | none => l ++ [fresh]

/-- Upsert of one question's `StudentAnswer` (find existing / append). -/
def processQuestion (db : DB) (sec : Option Section)
    (incoming : List (String × QPayload)) (answers : List StudentAnswer)
    (q : String × String) : List StudentAnswer :=
  upsertByKey (·.question_id) q.1 (updAnswer db sec incoming q)
    (freshAnswer db sec incoming q) answers

/-- The `(question_id, question_type)` pairs processed for one section:
section-doc questions (client fallback when the doc is missing), then any
client-sent questions not already present. -/
def sectionQuestionIds (sec : Option Section)
    (incoming : List (String × QPayload)) : List (String × String) :=
  let base := match sec with
    | some s =>
      s.questions.filterMap fun sq =>
        if sq.question_type == "mcq" then sq.mcq_ref.map (fun m => (m.id, "mcq"))
        else if sq.question_type == "coding" then sq.coding_ref.map (fun c => (c.id, "coding"))
        else if sq.question_type == "rearrange" then
          sq.rearrange_ref.map (fun r => (r.id, "rearrange"))
        else none
    | none => incoming.map (fun p => (p.1, qwellOf p.2))
  incoming.foldl
    (fun acc p => if acc.any (fun x => x.1 == p.1) then acc else acc ++ [(p.1, qwellOf p.2)])
    base

/-- Section rollup (`sec_max`, `sec_total`) recomputed from the answers. -/
def sectionRollup (answers : List StudentAnswer) : ℚ × ℚ :=
  ((answers.map answerSnapMarks).sum,
   ((answers.filterMap (·.marks_obtained)).sum))

/-- Process one `SectionAnswers` wrapper: update the name/duration snapshot
(when an existing wrapper meets a resolved section doc), upsert every
question, recompute the rollups. -/
def processWrapper (db : DB) (sec : Option Section)
    (incoming : List (String × QPayload)) (isFresh : Bool)
    (w : SectionAnswers) : SectionAnswers :=
  let w :=
    if isFresh then w
    else match sec with
      | some s => { w with section_name := some s.name, section_duration := s.duration }
      | none => w
  let newAnswers :=
    (sectionQuestionIds sec incoming).foldl (processQuestion db sec incoming) w.answers
  { w with answers := newAnswers,
           section_max_marks := (sectionRollup newAnswers).1,
           section_total_marks := (sectionRollup newAnswers).2 }

/-- The fresh wrapper created when the target list has no entry for the
section yet. -/
def freshWrapper (sid : String) (sec : Option Section) : SectionAnswers :=
  { section_id := sid, section_name := sec.map (·.name),
    section_duration := (sec.map (·.duration)).getD 0,
    answers := [], section_max_marks := 0, section_total_marks := 0 }

/-- The timed/open target-list choice: the section's `time_restricted` flag,
defaulting to open when the section doc is missing. -/
def targetIsTimed (sec : Option Section) : Bool :=
  match sec with
  | some s => s.time_restricted
  | none => false

/-- Process one entry of the section map against the attempt: choose the
timed or open target list by the section's `time_restricted` flag (missing
doc defaults to open), find-or-create the wrapper, process it. -/
def processSection (db : DB) (answersDict : AnswersDict) (st : Attempt)
    (entry : String × Option Section) : Attempt :=
  let sid := entry.1
  let sec := entry.2
  let incoming := (lookupA answersDict sid).getD []
  let toTimed := targetIsTimed sec
  let tlist := if toTimed then st.timed_section_answers else st.open_section_answers
  let tlist' :=
    match findByKey (·.section_id) sid tlist with
    | some _ => replaceByKey (·.section_id) sid (processWrapper db sec incoming false) tlist
    | none => tlist ++ [processWrapper db sec incoming true (freshWrapper sid sec)]
  if toTimed then { st with timed_section_answers := tlist' }
  else { st with open_section_answers := tlist' }

/-- Insert a key into the section map if absent (`if k not in section_map`),
or overwrite the stored document in place (`section_map[k] = s`). -/
def mapInsertOrSet (m : List (String × Option Section)) (k : String)
    (v : Option Section) : List (String × Option Section) :=
  if m.any (fun p => p.1 == k) then
    m.map (fun p => if p.1 == k then (p.1, v) else p)
  else m ++ [(k, v)]

/-- Build the insertion-ordered section map: the resolved test's timed then
open sections, then any client-sent section ids with a `Section.objects`
lookup (a failed lookup keeps a `none` placeholder). -/
def buildSectionMap (db : DB) (testObj : Option Test) (answersDict : AnswersDict) :
    List (String × Option Section) :=
  let m1 := match testObj with
    | some t =>
      (t.sections_time_restricted ++ t.sections_open).foldl
        (fun m s => mapInsertOrSet m s.id (some s)) []
    | none => []
  answersDict.foldl
    (fun m p =>
      if m.any (fun q => q.1 == p.1) then m
      else m ++ [(p.1, db.sections.find? (fun s => s.id == p.1))])
    m1

/-- `if test_obj is None and self.test_id: test_obj = Test.objects(...)`. -/
def resolveTestObj (db : DB) (a : Attempt) (testObj : Option Test) : Option Test :=
  match testObj with
  | some t => some t
  | none => db.tests.find? (fun t => t.id == a.test_id)

/-- `StudentTestAttempt.save_autosave`: resolve the test, build the section
map, process every section, then refresh `last_autosave`, `total_marks` and
`max_marks`. -/
def saveAutosave (db : DB) (testObj : Option Test) (answersDict : AnswersDict)
    (now : ℕ) (a : Attempt) : Attempt :=
  let testObj := resolveTestObj db a testObj
  let smap := buildSectionMap db testObj answersDict
  let a := smap.foldl (processSection db answersDict) a
  { a with last_autosave := some now,
           total_marks := totalMarksObtained a,
           max_marks := maxMarksPossible a }

/-! ## Student test routes (routes/students/test/test.py) -/

/-- `POST /test/auto-save` core: get-or-create is outside this model; the
route simply runs `save_autosave` on the attempt. -/
def routeAutoSave (db : DB) (test : Test) (answers : AnswersDict) (now : ℕ)
    (a : Attempt) : Attempt :=
  saveAutosave db (some test) answers now a

/-- `POST /test/submit` core: save latest answers, then mark submitted
(the already-submitted guard is commented out in the source). -/
def routeSubmitTest (db : DB) (test : Test) (answers : AnswersDict) (now : ℕ)
    (a : Attempt) : Attempt :=
  let a := saveAutosave db (some test) answers now a
  { a with submitted := true, submitted_at := some now,
           total_marks := totalMarksObtained a }

/-- `POST /test/tab-switch`: unconditionally increment the counter and stamp
`last_autosave`; once the count reaches the threshold 5 on an unsubmitted
attempt, set `fullscreen_violated`, best-effort autosave any supplied
answers, and force submission.  Returns the attempt and `auto_submitted`. -/
def routeTabSwitch (db : DB) (answers : Option AnswersDict) (now : ℕ)
    (a : Attempt) : Attempt × Bool :=
  let a := { a with tab_switches_count := a.tab_switches_count + 1,
                    last_autosave := some now }
  if a.tab_switches_count ≥ 5 ∧ a.submitted = false then
    let a := { a with fullscreen_violated := true }
    let a := match answers with
      | some ans =>
        if ans.isEmpty then a
        else match db.tests.find? (fun (t : Test) => t.id == a.test_id) with
          | some t => saveAutosave db (some t) ans now a
          | none => saveAutosave db none ans now a
      | none => a
    ({ a with submitted := true, submitted_at := some now,
              total_marks := totalMarksObtained a }, true)
  else (a, false)

/-- `POST /test/fullscreen-violation`: set the flag, best-effort autosave,
then submit immediately if not already submitted. -/
def routeFullscreenViolation (db : DB) (answers : Option AnswersDict) (now : ℕ)
    (a : Attempt) : Attempt :=
  let a := { a with fullscreen_violated := true, last_autosave := some now }
  let a := match answers with
    | some ans =>
      if ans.isEmpty then a
      else match db.tests.find? (fun t => t.id == a.test_id) with
        | some t => saveAutosave db (some t) ans now a
        | none => saveAutosave db none ans now a
    | none => a
  if a.submitted = false then
    { a with submitted := true, submitted_at := some now,
             total_marks := totalMarksObtained a }
  else a

/-- `GET /test/attempt/<test_id>` retake handling (lines 111-134): when
`?retake=true` or the attempt was previously submitted, clear answers and
reset every attempt field, then stamp `start_time` on first fetch. -/
def routeGetTestReset (wantsRetake : Bool) (now : ℕ) (a : Attempt) : Attempt :=
  let a :=
    if wantsRetake || a.submitted then
      { a with timed_section_answers := [], open_section_answers := [],
               start_time := none, last_autosave := none, total_marks := 0,
               max_marks := 0, tab_switches_count := 0,
               fullscreen_violated := false, submitted := false,
               submitted_at := none }
    else a
  if a.start_time = none then
    { a with start_time := some now, last_autosave := some now }
  else a

/-! ## Largest-remainder allocation
(routes/coding/test_coding_question.py, submit_question lines 520-549). -/

/-- `group_max_points[idx] += 1` at a position. -/
def bumpAt : List ℤ → ℕ → List ℤ
  | [], _ => []
  | a :: as, 0 => (a + 1) :: as
  | a :: as, Nat.succ n => a :: bumpAt as n

/-- `group_max_points[0] += remainder` (dead in exact arithmetic; kept from
the source's defensive tail). -/
def addHead (d : ℤ) : List ℤ → List ℤ
  | [] => []
  | a :: as => (a + d) :: as

/-- Stable insertion into a list sorted by descending fractional part: the
new element goes before the first strictly-smaller key, so equal keys keep
their original (index-ascending) order, as Python's stable `sort` does. -/
def insertDesc (x : ℕ × ℚ) : List (ℕ × ℚ) → List (ℕ × ℚ)
  | [] => [x]
  | y :: ys => if y.2 ≤ x.2 then x :: y :: ys else y :: insertDesc x ys

/-- `frac_parts.sort(key=..., reverse=True)` (stable, descending by key). -/
def sortDesc : List (ℕ × ℚ) → List (ℕ × ℚ)
  | [] => []
  | x :: xs => insertDesc x (sortDesc xs)

/-- The effective weights: `if sum_weights == 0`, every weight becomes 1. -/
def effWeights (weights : List ℕ) : List ℕ :=
  if weights.sum = 0 then weights.map (fun _ => 1) else weights

/-- The raw (exact) per-group shares `(w_i / Σw) × P`. -/
def rawShares (P : ℕ) (weights : List ℕ) : List ℚ :=
  let ws := effWeights weights
  ws.map (fun (w : ℕ) => ((w : ℚ) / (ws.sum : ℚ)) * (P : ℚ))

/-- `group_floor = [int(math.floor(x)) for x in raw_group_points]`. -/
def groupFloor (P : ℕ) (weights : List ℕ) : List ℤ :=
  (rawShares P weights).map Int.floor

/-- `remainder = q_total_points - allocated`. -/
def allocRemainder (P : ℕ) (weights : List ℕ) : ℤ :=
  (P : ℤ) - (groupFloor P weights).sum

/-- `frac_parts = [(i, raw[i] - floor[i]) for i in range(len(raw))]`. -/
def fracParts (P : ℕ) (weights : List ℕ) : List (ℕ × ℚ) :=
  (rawShares P weights).enum.map (fun p => (p.1, p.2 - Int.floor p.2))

/-- The group indices in the order the remainder-distribution loop visits
them: `frac_parts` sorted descending by fractional part (stable). -/
def allocOrder (P : ℕ) (weights : List ℕ) : List ℕ :=
  (sortDesc (fracParts P weights)).map Prod.fst

/-- Largest-remainder allocation of `P` points over the group weights:
floor each raw share, then hand the remainder out one point at a time to
the largest fractional parts (ties by group index ascending, via the stable
sort), with the source's defensive `group_max_points[0] += remainder` tail. -/
def allocateGroupPoints (P : ℕ) (weights : List ℕ) : List ℤ :=
  let rem := allocRemainder P weights
  let order := allocOrder P weights
  let k := min rem.toNat order.length
  let bumped := (order.take k).foldl bumpAt (groupFloor P weights)
  let leftover := rem - (k : ℤ)
  if leftover > 0 then addHead leftover bumped else bumped

/-- Number of `StudentAnswer` records stored for a `(section_id, question_id)`
pair across both section lists of an attempt. -/
def countAnswerRecords (a : Attempt) (sid qid : String) : ℕ :=
  (((a.timed_section_answers ++ a.open_section_answers).filter
      (fun w => w.section_id == sid)).map
    (fun w => (w.answers.filter (fun x => x.question_id == qid)).length)).sum

/-- The per-question upsert leaves an answer for `q` whose stored fields are
exactly what a re-run of the same upsert would write again. -/
def answerDone (db : DB) (sec : Option Section) (incoming : List (String × QPayload))
    (q : String × String) (answers : List StudentAnswer) : Prop :=
  ∃ a, findByKey (·.question_id) q.1 answers = some a ∧
    updAnswer db sec incoming q a = a

/-- A wrapper whose stored fields are exactly what one more processing pass
with the same inputs would write again. -/
def wrapperSynced (db : DB) (sec : Option Section)
    (incoming : List (String × QPayload)) (w : SectionAnswers) : Prop :=
  (∀ s, sec = some s → w.section_name = some s.name ∧ w.section_duration = s.duration) ∧
  w.section_max_marks = (sectionRollup w.answers).1 ∧
  w.section_total_marks = (sectionRollup w.answers).2 ∧
  ∀ q ∈ sectionQuestionIds sec incoming, answerDone db sec incoming q w.answers

/-- The attempt's target list holds a synced wrapper for a section-map entry. -/
def sectionSynced (db : DB) (answersDict : AnswersDict) (st : Attempt)
    (e : String × Option Section) : Prop :=
  ∃ w, findByKey (fun w => w.section_id) e.1
      (if targetIsTimed e.2 then st.timed_section_answers
       else st.open_section_answers) = some w ∧
    wrapperSynced db e.2 ((lookupA answersDict e.1).getD []) w

/-! ## Lemmas about the graders -/

theorem Json.str_injective : Function.Injective Json.str :=
  fun _ _ h => Json.str.inj h

theorem list_toFinset_map {a b : Type} [DecidableEq a] [DecidableEq b]
    (f : a → b) (l : List a) :
    (l.map f).toFinset = l.toFinset.image f := by
  ext x
  simp

theorem truthy_guard_arr (l : List Json) :
    (if (Json.arr l).truthy then Json.arr l else Json.arr []) = Json.arr l := by
  cases l <;> simp [Json.truthy]

theorem pySet_arr_map_str (l : List String) :
    pySet (Json.arr (l.map Json.str)) = some (l.toFinset.image Json.str) := by
  rw [pySet, list_toFinset_map]
  have h : (l.map Json.str).any Json.unhashable = false := by
    simp only [List.any_map, List.any_eq_false]
    intro x hx
    obtain ⟨y, -, rfl⟩ := List.mem_map.mp hx
    simp [Json.unhashable]
  rw [h]
  simp

theorem gradeMCQ_of_str_list (mcq : MCQRef) (sel : List String) :
    gradeMCQ mcq (Json.arr (sel.map Json.str)) =
      (let selected := sel.toFinset.image Json.str
       let correct := (mcq.correct_options.map Json.str).toFinset
       if !mcq.is_multiple then
         if selected.card = 1 ∧ selected ⊆ correct then mcq.marks else 0
       else
         if correct = ∅ then 0
         else
           min (max (mcq.marks * (((selected ∩ correct).card : ℚ) / (correct.card : ℚ))
               - mcq.negative_marks * ((selected \ correct).card : ℚ)) 0) mcq.marks) := by
  rw [gradeMCQ, truthy_guard_arr, pySet_arr_map_str]

/-- C3: for multi-answer MCQ snapshots, the grade is
`marks × |correct ∩ selected| / |correct| − negative_marks × |selected \ correct|`
clamped to `[0, marks]`, and 0 when the correct set is empty. -/
theorem mcq_multi_grade_formula (mcq : MCQRef) (sel : List String)
    (hm : mcq.is_multiple = true) :
    gradeMCQ mcq (Json.arr (sel.map Json.str)) =
      (if mcq.correct_options.toFinset = ∅ then 0
       else
         min (max (mcq.marks * (((sel.toFinset ∩ mcq.correct_options.toFinset).card : ℚ)
               / (mcq.correct_options.toFinset.card : ℚ))
             - mcq.negative_marks
               * ((sel.toFinset \ mcq.correct_options.toFinset).card : ℚ)) 0)
           mcq.marks) := by
  rw [gradeMCQ_of_str_list]
  simp only [hm, Bool.not_true, Bool.false_eq_true, if_false]
  rw [list_toFinset_map,
    ← Finset.image_inter _ _ Json.str_injective,
    ← Finset.image_sdiff _ _ Json.str_injective,
    Finset.card_image_of_injective _ Json.str_injective,
    Finset.card_image_of_injective _ Json.str_injective,
    Finset.card_image_of_injective _ Json.str_injective]
  by_cases hc : mcq.correct_options.toFinset = ∅
  · simp [hc]
  · rw [if_neg (by simpa using hc), if_neg hc]

/-- C3 witness: the spec's worked example — `marks 10`, `negative_marks 2`,
`correct {A,B}`, selection `{A,C}` grades to `10×(1/2) − 2×1 = 3`. -/
theorem mcq_multi_grade_formula_witness :
    (MCQRef.mk "q" true 10 2 ["A", "B"]).is_multiple = true ∧
    gradeMCQ (MCQRef.mk "q" true 10 2 ["A", "B"])
      (Json.arr (["A", "C"].map Json.str)) = 3 := by
  refine ⟨rfl, ?_⟩
  rw [mcq_multi_grade_formula (MCQRef.mk "q" true 10 2 ["A", "B"]) ["A", "C"] rfl]
  dsimp only
  rw [if_neg (by decide),
    (by decide : ((["A", "C"] : List String).toFinset ∩
        (["A", "B"] : List String).toFinset).card = 1),
    (by decide : ((["A", "C"] : List String).toFinset \
        (["A", "B"] : List String).toFinset).card = 1),
    (by decide : ((["A", "B"] : List String).toFinset).card = 2)]
  norm_num [min_def, max_def]

/-- C9: for single-answer MCQ snapshots with a single correct id, grading
awards full marks iff exactly the correct id is selected, else 0 (no
negative marking on autosave). -/
theorem mcq_single_grade (mcq : MCQRef) (c : String) (sel : List String)
    (hm : mcq.is_multiple = false) (hc : mcq.correct_options = [c]) :
    gradeMCQ mcq (Json.arr (sel.map Json.str)) =
      if sel.toFinset = {c} then mcq.marks else 0 := by
  rw [gradeMCQ_of_str_list]
  simp only [hm, Bool.not_false, if_true, hc]
  have hiff : ((sel.toFinset.image Json.str).card = 1 ∧
      sel.toFinset.image Json.str ⊆ ([c].map Json.str).toFinset) ↔
      sel.toFinset = {c} := by
    rw [Finset.card_image_of_injective _ Json.str_injective]
    simp only [List.map_cons, List.map_nil, List.toFinset_cons, List.toFinset_nil,
      insert_emptyc_eq]
    constructor
    · rintro ⟨h1, h2⟩
      have hsub : sel.toFinset ⊆ {c} := by
        intro x hx
        have hxm := h2 (Finset.mem_image_of_mem _ hx)
        simp only [Finset.mem_singleton] at hxm ⊢
        exact Json.str_injective hxm
      rcases Finset.subset_singleton_iff.mp hsub with h | h
      · rw [h] at h1
        simp at h1
      · exact h
    · intro h
      rw [h]
      simp
  rw [if_congr hiff rfl rfl]

/-- C9 witness: selecting exactly the correct id on a single-answer snapshot
yields full marks; selecting a wrong id yields 0. -/
theorem mcq_single_grade_witness :
    (MCQRef.mk "q" false 10 2 ["A"]).is_multiple = false ∧
    gradeMCQ (MCQRef.mk "q" false 10 2 ["A"]) (Json.arr (["A"].map Json.str)) = 10 ∧
    gradeMCQ (MCQRef.mk "q" false 10 2 ["A"]) (Json.arr (["B"].map Json.str)) = 0 := by
  refine ⟨rfl, ?_, ?_⟩
  · rw [mcq_single_grade (MCQRef.mk "q" false 10 2 ["A"]) "A" ["A"] rfl rfl]
    rw [if_pos (by decide)]
  · rw [mcq_single_grade (MCQRef.mk "q" false 10 2 ["A"]) "A" ["B"] rfl rfl]
    rw [if_neg (by decide)]

/-- C6 counterexample: for a Reorder snapshot with empty `correct_order` and
`marks = 5`, the truncated submission `[]` equals the correct order, yet the
grader returns 0, not `marks` — the claimed "iff" fails. -/
theorem rearrange_empty_correct_counterexample :
    ¬ (gradeRearrange (RearrangeRef.mk "r1" 5 []) (Json.arr []) =
         (RearrangeRef.mk "r1" 5 []).marks ↔
       (([] : List Json).take (RearrangeRef.mk "r1" 5 []).correct_order.length =
         (RearrangeRef.mk "r1" 5 []).correct_order.map Json.str)) := by
  decide

/-- C6 amended: for Reorder snapshots with a nonempty correct order, the
grade is `marks` iff the submitted order truncated to the correct order's
length equals it exactly, else 0; grading the correct order itself yields
full marks.  (Snapshots with an empty correct order grade to 0 regardless.) -/
theorem rearrange_exact_match (r : RearrangeRef) (sub : List String)
    (h : r.correct_order ≠ []) :
    gradeRearrange r (Json.arr (sub.map Json.str)) =
      (if sub.take r.correct_order.length = r.correct_order then r.marks else 0) ∧
    gradeRearrange r (Json.arr (r.correct_order.map Json.str)) = r.marks := by
  have hmapinj := List.map_injective_iff.mpr Json.str_injective
  constructor
  · rw [gradeRearrange, if_neg h, truthy_guard_arr]
    simp only [pyList]
    rw [← List.map_take]
    exact if_congr ⟨fun hh => hmapinj hh, fun hh => by rw [hh]⟩ rfl rfl
  · rw [gradeRearrange, if_neg h, truthy_guard_arr]
    simp only [pyList]
    rw [← List.map_take, List.take_length]
    exact if_pos rfl

/-- C6 witness: grading a wrong permutation of `[a, b]` yields 0, grading
the correct order yields the full 5 marks. -/
theorem rearrange_exact_match_witness :
    (RearrangeRef.mk "r1" 5 ["a", "b"]).correct_order ≠ [] ∧
    gradeRearrange (RearrangeRef.mk "r1" 5 ["a", "b"])
      (Json.arr (["b", "a"].map Json.str)) = 0 ∧
    gradeRearrange (RearrangeRef.mk "r1" 5 ["a", "b"])
      (Json.arr ((["a", "b"] : List String).map Json.str)) = 5 := by
  have hne : (RearrangeRef.mk "r1" 5 ["a", "b"]).correct_order ≠ [] := by decide
  refine ⟨hne, ?_, ?_⟩
  · rw [(rearrange_exact_match (RearrangeRef.mk "r1" 5 ["a", "b"]) ["b", "a"] hne).1]
    decide
  · exact (rearrange_exact_match (RearrangeRef.mk "r1" 5 ["a", "b"]) ["a", "b"] hne).2

/-- C7 counterexample: the MCQ normalizer maps the unrecognized shape `7`
(not a string, list, or dict) to itself, not to an empty sequence. -/
theorem normalizer_other_shape_counterexample :
    normalizeMCQValue (some (Json.num 7)) = Json.num 7 ∧
    Json.num 7 ≠ Json.arr [] := by
  decide

/-- C7 amended: the normalizers never raise (they are total functions), and
map a bare string to a one-element sequence, pass a list through, use a
dict's `value` key (falsy values degrade to `[]`), and treat a coding dict's
`submission_ids` as `value`; but unrecognized shapes degrade to an empty
sequence only for rearrange (and for non-dict shapes in coding) — the MCQ
normalizer stores non-null unrecognized values as-is, and both the MCQ and
coding normalizers store a dict lacking the special keys as-is. -/
theorem normalizer_shapes :
    (∀ s, normalizeMCQValue (some (Json.str s)) = Json.arr [Json.str s] ∧
          normalizeCodingValue (some (Json.str s)) = Json.arr [Json.str s] ∧
          normalizeRearrangeValue (some (Json.str s)) = Json.arr [Json.str s]) ∧
    (∀ l, normalizeMCQValue (some (Json.arr l)) = Json.arr l ∧
          normalizeCodingValue (some (Json.arr l)) = Json.arr l ∧
          normalizeRearrangeValue (some (Json.arr l)) = Json.arr l) ∧
    (normalizeMCQValue none = Json.arr [] ∧
     normalizeCodingValue none = Json.arr [] ∧
     normalizeRearrangeValue none = Json.arr []) ∧
    (∀ v d, normalizeMCQValue (some (Json.obj (("value", v) :: d))) =
              (if v.truthy then v else Json.arr []) ∧
            normalizeCodingValue (some (Json.obj (("value", v) :: d))) =
              (if v.truthy then v else Json.arr []) ∧
            normalizeRearrangeValue (some (Json.obj (("value", v) :: d))) =
              (match v with
               | Json.arr l => Json.arr l
               | Json.null => Json.arr []
               | v => Json.arr [v])) ∧
    (∀ v d, Json.getKey d "value" = none →
            normalizeCodingValue (some (Json.obj (("submission_ids", v) :: d))) =
              (if v.truthy then v else Json.arr [])) ∧
    (∀ d, Json.getKey d "value" = none →
          normalizeMCQValue (some (Json.obj d)) = Json.obj d) ∧
    (∀ d, Json.getKey d "value" = none → Json.getKey d "submission_ids" = none →
          normalizeCodingValue (some (Json.obj d)) = Json.obj d) ∧
    (∀ d, Json.getKey d "value" = none →
          normalizeRearrangeValue (some (Json.obj d)) = Json.arr []) ∧
    (∀ q, normalizeMCQValue (some (Json.num q)) = Json.num q ∧
          normalizeCodingValue (some (Json.num q)) = Json.arr [] ∧
          normalizeRearrangeValue (some (Json.num q)) = Json.arr []) ∧
    (∀ b, normalizeMCQValue (some (Json.bool b)) = Json.bool b ∧
          normalizeCodingValue (some (Json.bool b)) = Json.arr [] ∧
          normalizeRearrangeValue (some (Json.bool b)) = Json.arr []) := by
  refine ⟨fun s => ⟨rfl, rfl, rfl⟩, fun l => ⟨rfl, rfl, rfl⟩, ⟨rfl, rfl, rfl⟩,
    ?_, ?_, ?_, ?_, ?_, fun q => ⟨rfl, rfl, rfl⟩, fun b => ⟨rfl, rfl, rfl⟩⟩
  · intro v d
    refine ⟨?_, ?_, ?_⟩
    · simp [normalizeMCQValue, Json.getKey, List.find?]
    · simp [normalizeCodingValue, Json.getKey, List.find?]
    · have : Json.getKey (("value", v) :: d) "value" = some v := by
        simp [Json.getKey, List.find?]
      simp only [normalizeRearrangeValue, this]
      cases v <;> rfl
  · intro v d hd
    have hfind : Json.getKey (("submission_ids", v) :: d) "value" = none := by
      simpa [Json.getKey, List.find?] using hd
    have hfind2 : Json.getKey (("submission_ids", v) :: d) "submission_ids" = some v := by
      simp [Json.getKey, List.find?]
    simp [normalizeCodingValue, hfind, hfind2]
  · intro d hd
    simp [normalizeMCQValue, hd]
  · intro d hd hs
    simp [normalizeCodingValue, hd, hs]
  · intro d hd
    simp [normalizeRearrangeValue, hd]

/-- C7 witness: a dict lacking the `value` key is stored as-is by the MCQ
normalizer (concrete instance of the amended rule). -/
theorem normalizer_shapes_witness :
    normalizeMCQValue (some (Json.obj [("x", Json.num 1)])) =
      Json.obj [("x", Json.num 1)] :=
  normalizer_shapes.2.2.2.2.2.1 [("x", Json.num 1)] rfl

/-! ## Lemmas about the autosave coding grader -/

theorem subKeyGT_irrefl (s : Submission) : subKeyGT s s = false := by
  simp [subKeyGT]

theorem subKeyGT_asymm {a b : Submission} (h : subKeyGT a b = true) :
    subKeyGT b a = false := by
  simp only [subKeyGT, decide_eq_true_eq, decide_eq_false_iff_not] at h ⊢
  omega

theorem subKeyGT_neg_trans {a b c : Submission} (hab : subKeyGT a b = false)
    (hbc : subKeyGT b c = false) : subKeyGT a c = false := by
  simp only [subKeyGT, decide_eq_false_iff_not] at hab hbc ⊢
  omega

theorem pickBest_spec (rest : List Submission) :
    ∀ s : Submission, pickBest s rest ∈ s :: rest ∧
      ∀ t ∈ s :: rest, subKeyGT t (pickBest s rest) = false := by
  induction rest with
  | nil =>
    intro s
    refine ⟨List.mem_cons_self s [], ?_⟩
    intro t ht
    rcases List.mem_cons.mp ht with h | h
    · rw [h]
      exact subKeyGT_irrefl s
    · exact absurd h (List.not_mem_nil t)
  | cons r rest ih =>
    intro s
    by_cases hrs : subKeyGT r s = true
    · have hstep : pickBest s (r :: rest) = pickBest r rest := by
        simp [pickBest, List.foldl, hrs]
      obtain ⟨hmem, hmax⟩ := ih r
      refine ⟨?_, ?_⟩
      · rw [hstep]
        rcases List.mem_cons.mp hmem with h | h
        · exact List.mem_cons.mpr (Or.inr (by rw [h]; exact List.mem_cons_self r rest))
        · exact List.mem_cons.mpr (Or.inr (List.mem_cons.mpr (Or.inr h)))
      · intro t ht
        rw [hstep]
        have hhead := hmax r (List.mem_cons_self r rest)
        rcases List.mem_cons.mp ht with h | h
        · rw [h]
          exact subKeyGT_neg_trans (subKeyGT_asymm hrs) hhead
        · rcases List.mem_cons.mp h with h2 | h2
          · rw [h2]
            exact hhead
          · exact hmax t (List.mem_cons.mpr (Or.inr h2))
    · rw [Bool.not_eq_true] at hrs
      have hstep : pickBest s (r :: rest) = pickBest s rest := by
        simp [pickBest, List.foldl, hrs]
      obtain ⟨hmem, hmax⟩ := ih s
      refine ⟨?_, ?_⟩
      · rw [hstep]
        rcases List.mem_cons.mp hmem with h | h
        · exact List.mem_cons.mpr (Or.inl h)
        · exact List.mem_cons.mpr (Or.inr (List.mem_cons.mpr (Or.inr h)))
      · intro t ht
        rw [hstep]
        have hhead := hmax s (List.mem_cons_self s rest)
        rcases List.mem_cons.mp ht with h | h
        · rw [h]
          exact hhead
        · rcases List.mem_cons.mp h with h2 | h2
          · rw [h2]
            exact subKeyGT_neg_trans hrs hhead
          · exact hmax t (List.mem_cons.mpr (Or.inr h2))

theorem subIdsOfValue_str_list (ids : List String) (hok : ∀ i ∈ ids, i ≠ "") :
    subIdsOfValue (Json.arr (ids.map Json.str)) = some ids := by
  rw [subIdsOfValue, truthy_guard_arr]
  simp only [pyList]
  have hfilter : (ids.map Json.str).filter Json.truthy = ids.map Json.str := by
    rw [List.filter_eq_self]
    intro x hx
    obtain ⟨y, hy, rfl⟩ := List.mem_map.mp hx
    simpa [Json.truthy] using hok y hy
  rw [hfilter, List.map_map]
  have : (pyStr ∘ Json.str) = id := by
    funext x
    rfl
  rw [this, List.map_id]

/-- C4 counterexample: a submission owned by another user still determines
the autosave grade (the code queries by submission id only), while the
spec's grader — which filters by user/question — resolves nothing and
returns null. -/
theorem coding_grader_user_filter_counterexample :
    codingAutosaveGrade [Submission.mk "s1" "q1" "other-user" (some 7) [] 1 1]
      (Json.arr [Json.str "s1"]) = some 7 ∧
    specCodingResultGrader [Submission.mk "s1" "q1" "other-user" (some 7) [] 1 1]
      "u1" "q1" ["s1"] = none := by
  constructor
  · rfl
  · rfl

/-- C4 amended: the autosave coding grader resolves submissions by id only
(no user/question filter), scores each by its stored `total_score` (a null
`total_score` aborts grading to null; per-case points are never summed),
picks a submission maximal in `(total_score, updated_at)` and returns its
`total_score`; it returns null when no submissions resolve. -/
theorem coding_autosave_grade_best (subsDB : List Submission) (ids : List String)
    (hne : ids ≠ []) (hok : ∀ i ∈ ids, i ≠ "") :
    (subsDB.filter (fun s => ids.contains s.id) = [] →
      codingAutosaveGrade subsDB (Json.arr (ids.map Json.str)) = none) ∧
    (∀ s0 rest, subsDB.filter (fun s => ids.contains s.id) = s0 :: rest →
      ((s0 :: rest).any (fun t => t.total_score.isNone) = true →
        codingAutosaveGrade subsDB (Json.arr (ids.map Json.str)) = none) ∧
      ((s0 :: rest).any (fun t => t.total_score.isNone) = false →
        ∃ b ∈ s0 :: rest,
          codingAutosaveGrade subsDB (Json.arr (ids.map Json.str)) =
            some ((b.total_score.getD 0 : ℤ) : ℚ) ∧
          ∀ t ∈ s0 :: rest, subKeyGT t b = false)) := by
  have hids := subIdsOfValue_str_list ids hok
  have hemp : ids.isEmpty = false := by
    cases ids with
    | nil => exact absurd rfl hne
    | cons x xs => rfl
  constructor
  · intro hfil
    rw [codingAutosaveGrade, hids]
    simp only [hemp, Bool.false_eq_true, if_false, hfil]
  · intro s0 rest hfil
    constructor
    · intro hany
      rw [codingAutosaveGrade, hids]
      simp only [hemp, Bool.false_eq_true, if_false, hfil, hany, if_true]
    · intro hany
      refine ⟨pickBest s0 rest, (pickBest_spec rest s0).1, ?_, (pickBest_spec rest s0).2⟩
      rw [codingAutosaveGrade, hids]
      simp only [hemp, Bool.false_eq_true, if_false, hfil, hany]

/-- C4 amended-claim witness: two resolved submissions of the user —
the grader returns the higher stored `total_score` (9). -/
theorem coding_autosave_grade_best_witness :
    codingAutosaveGrade
      [Submission.mk "s1" "q1" "u1" (some 7) [] 1 1,
       Submission.mk "s2" "q1" "u1" (some 9) [] 2 2]
      (Json.arr (["s1", "s2"].map Json.str)) = some 9 := by
  obtain ⟨b, hb, hgrade, hmax⟩ :=
    ((coding_autosave_grade_best
      [Submission.mk "s1" "q1" "u1" (some 7) [] 1 1,
       Submission.mk "s2" "q1" "u1" (some 9) [] 2 2]
      ["s1", "s2"] (by decide) (by decide)).2
      (Submission.mk "s1" "q1" "u1" (some 7) [] 1 1)
      [Submission.mk "s2" "q1" "u1" (some 9) [] 2 2] (by decide)).2 (by decide)
  have hb9 : b = Submission.mk "s2" "q1" "u1" (some 9) [] 2 2 := by
    have h1 := hmax (Submission.mk "s2" "q1" "u1" (some 9) [] 2 2) (by decide)
    rcases List.mem_cons.mp hb with h | h
    · rw [h] at h1
      exact absurd h1 (by decide)
    · simpa using h
  rw [hgrade, hb9]
  norm_num

/-! ## Lemmas about the largest-remainder allocation -/

theorem effWeights_length (w : List ℕ) : (effWeights w).length = w.length := by
  rw [effWeights]
  split
  · exact List.length_map w _
  · rfl

theorem rawShares_length (P : ℕ) (w : List ℕ) :
    (rawShares P w).length = w.length := by
  rw [rawShares]
  rw [List.length_map]
  exact effWeights_length w

theorem effWeights_sum_ne_zero (w : List ℕ) (h : w ≠ []) :
    (effWeights w).sum ≠ 0 := by
  rw [effWeights]
  split
  · rename_i hz
    cases w with
    | nil => exact absurd rfl h
    | cons a l => simp
  · rename_i hz
    exact hz

theorem sum_map_share (l : List ℕ) (S P : ℚ) :
    (l.map (fun (x : ℕ) => ((x : ℚ) / S) * P)).sum = ((l.sum : ℕ) : ℚ) / S * P := by
  induction l with
  | nil => simp
  | cons a l ih =>
    rw [List.map_cons, List.sum_cons, ih, List.sum_cons]
    push_cast
    ring

theorem rawShares_sum (P : ℕ) (w : List ℕ) (h : w ≠ []) :
    (rawShares P w).sum = (P : ℚ) := by
  rw [rawShares, sum_map_share]
  have hS : (((effWeights w).sum : ℕ) : ℚ) ≠ 0 := by
    exact_mod_cast effWeights_sum_ne_zero w h
  rw [div_self hS, one_mul]

theorem cast_sum_floor (l : List ℚ) :
    (((l.map Int.floor).sum : ℤ) : ℚ) = (l.map (fun x => ((⌊x⌋ : ℤ) : ℚ))).sum := by
  induction l with
  | nil => simp
  | cons a l ih =>
    rw [List.map_cons, List.sum_cons, List.map_cons, List.sum_cons, ← ih]
    push_cast
    ring

theorem sum_floor_le (l : List ℚ) :
    (l.map (fun x => ((⌊x⌋ : ℤ) : ℚ))).sum ≤ l.sum := by
  induction l with
  | nil => simp
  | cons a l ih =>
    rw [List.map_cons, List.sum_cons, List.sum_cons]
    exact add_le_add (Int.floor_le a) ih

theorem sum_le_sum_floor_add_len (l : List ℚ) :
    l.sum - l.length ≤ (l.map (fun x => ((⌊x⌋ : ℤ) : ℚ))).sum := by
  induction l with
  | nil => simp
  | cons a l ih =>
    rw [List.map_cons, List.sum_cons, List.sum_cons, List.length_cons]
    have ha : a - 1 ≤ ((⌊a⌋ : ℤ) : ℚ) := le_of_lt (Int.sub_one_lt_floor a)
    push_cast
    calc a + l.sum - (l.length + 1) = (a - 1) + (l.sum - l.length) := by ring
    _ ≤ ((⌊a⌋ : ℤ) : ℚ) + (l.map (fun x => ((⌊x⌋ : ℤ) : ℚ))).sum := add_le_add ha ih

theorem sum_lt_sum_floor_add_len (l : List ℚ) (h : l ≠ []) :
    l.sum - l.length < (l.map (fun x => ((⌊x⌋ : ℤ) : ℚ))).sum := by
  cases l with
  | nil => exact absurd rfl h
  | cons a l =>
    rw [List.map_cons, List.sum_cons, List.sum_cons, List.length_cons]
    have ha : a - 1 < ((⌊a⌋ : ℤ) : ℚ) := Int.sub_one_lt_floor a
    have hl := sum_le_sum_floor_add_len l
    push_cast
    calc a + l.sum - (l.length + 1) = (a - 1) + (l.sum - l.length) := by ring
    _ < ((⌊a⌋ : ℤ) : ℚ) + (l.map (fun x => ((⌊x⌋ : ℤ) : ℚ))).sum :=
      add_lt_add_of_lt_of_le ha hl

theorem allocRemainder_nonneg (P : ℕ) (w : List ℕ) (h : w ≠ []) :
    0 ≤ allocRemainder P w := by
  rw [allocRemainder, groupFloor]
  have h1 : ((((rawShares P w).map Int.floor).sum : ℤ) : ℚ) ≤ (P : ℚ) := by
    rw [cast_sum_floor, ← rawShares_sum P w h]
    exact sum_floor_le _
  have h2 : ((rawShares P w).map Int.floor).sum ≤ (P : ℤ) := by exact_mod_cast h1
  omega

theorem allocRemainder_lt_len (P : ℕ) (w : List ℕ) (h : w ≠ []) :
    allocRemainder P w < (w.length : ℤ) := by
  rw [allocRemainder, groupFloor]
  have hne : rawShares P w ≠ [] := by
    intro hc
    apply h
    have hl := rawShares_length P w
    rw [hc] at hl
    exact List.length_eq_zero.mp hl.symm
  have h1 : (P : ℚ) - (w.length : ℚ) <
      ((((rawShares P w).map Int.floor).sum : ℤ) : ℚ) := by
    rw [cast_sum_floor]
    have := sum_lt_sum_floor_add_len (rawShares P w) hne
    rw [rawShares_sum P w h, rawShares_length P w] at this
    exact this
  have h2 : (P : ℤ) - (w.length : ℤ) < ((rawShares P w).map Int.floor).sum := by
    exact_mod_cast h1
  omega

theorem bumpAt_length (l : List ℤ) (i : ℕ) : (bumpAt l i).length = l.length := by
  induction l generalizing i with
  | nil => rfl
  | cons a as ih =>
    cases i with
    | zero => rfl
    | succ n => simp [bumpAt, ih]

theorem bumpAt_sum (l : List ℤ) (i : ℕ) (h : i < l.length) :
    (bumpAt l i).sum = l.sum + 1 := by
  induction l generalizing i with
  | nil => simp at h
  | cons a as ih =>
    cases i with
    | zero =>
      simp [bumpAt]
      ring
    | succ n =>
      have hn : n < as.length := by simpa using h
      simp [bumpAt, ih n hn]
      ring

theorem foldl_bumpAt_length (idxs : List ℕ) (l : List ℤ) :
    (idxs.foldl bumpAt l).length = l.length := by
  induction idxs generalizing l with
  | nil => rfl
  | cons i idxs ih =>
    rw [List.foldl_cons, ih, bumpAt_length]

theorem foldl_bumpAt_sum (idxs : List ℕ) (l : List ℤ)
    (h : ∀ i ∈ idxs, i < l.length) :
    (idxs.foldl bumpAt l).sum = l.sum + idxs.length := by
  induction idxs generalizing l with
  | nil => simp
  | cons i idxs ih =>
    rw [List.foldl_cons, ih, bumpAt_sum l i (h i (List.mem_cons_self i idxs))]
    · simp
      ring
    · intro j hj
      rw [bumpAt_length]
      exact h j (List.mem_cons.mpr (Or.inr hj))

theorem bumpAt_getD_le (l : List ℤ) (i j : ℕ) :
    l.getD j 0 ≤ (bumpAt l i).getD j 0 := by
  induction l generalizing i j with
  | nil => simp [bumpAt]
  | cons a as ih =>
    cases i with
    | zero =>
      cases j with
      | zero => simp [bumpAt]
      | succ m => simp [bumpAt]
    | succ n =>
      cases j with
      | zero => simp [bumpAt]
      | succ m =>
        simp only [bumpAt, List.getD_cons_succ]
        exact ih n m

theorem foldl_bumpAt_getD_le (idxs : List ℕ) (l : List ℤ) (j : ℕ) :
    l.getD j 0 ≤ (idxs.foldl bumpAt l).getD j 0 := by
  induction idxs generalizing l with
  | nil => exact le_refl _
  | cons i idxs ih =>
    rw [List.foldl_cons]
    exact le_trans (bumpAt_getD_le l i j) (ih (bumpAt l i))

theorem insertDesc_perm (x : ℕ × ℚ) (l : List (ℕ × ℚ)) :
    List.Perm (insertDesc x l) (x :: l) := by
  induction l with
  | nil => exact List.Perm.refl _
  | cons y ys ih =>
    rw [insertDesc]
    split
    · exact List.Perm.refl _
    · exact List.Perm.trans (List.Perm.cons y ih) (List.Perm.swap x y ys)

theorem sortDesc_perm (l : List (ℕ × ℚ)) : List.Perm (sortDesc l) l := by
  induction l with
  | nil => exact List.Perm.refl _
  | cons x xs ih =>
    rw [sortDesc]
    exact List.Perm.trans (insertDesc_perm x _) (List.Perm.cons x ih)

theorem fracParts_map_fst (P : ℕ) (w : List ℕ) :
    (fracParts P w).map Prod.fst = List.range w.length := by
  rw [fracParts, List.map_map]
  have : (Prod.fst ∘ fun p : ℕ × ℚ => (p.1, p.2 - Int.floor p.2)) = Prod.fst := by
    funext p
    rfl
  rw [this, List.enum_map_fst, rawShares_length]

theorem allocOrder_perm (P : ℕ) (w : List ℕ) :
    List.Perm (allocOrder P w) (List.range w.length) := by
  rw [allocOrder, ← fracParts_map_fst P w]
  exact List.Perm.map Prod.fst (sortDesc_perm _)

theorem allocOrder_length (P : ℕ) (w : List ℕ) :
    (allocOrder P w).length = w.length := by
  rw [(allocOrder_perm P w).length_eq, List.length_range]

theorem allocOrder_mem_lt (P : ℕ) (w : List ℕ) (i : ℕ) (h : i ∈ allocOrder P w) :
    i < w.length :=
  List.mem_range.mp ((allocOrder_perm P w).mem_iff.mp h)

theorem groupFloor_length (P : ℕ) (w : List ℕ) :
    (groupFloor P w).length = w.length := by
  rw [groupFloor, List.length_map, rawShares_length]

/-- The spec's worked allocation example, spelled out: weights `[1,1,1]`
with `P = 17` give raw shares `17/3`, floors `[5,5,5]`, remainder 2, and the
two leftover points go to the tied groups of lowest index. -/
theorem allocate_17_111 : allocateGroupPoints 17 [1, 1, 1] = [6, 6, 5] := by
  have hfl : ⌊(17 / 3 : ℚ)⌋ = 5 := by
    rw [Int.floor_eq_iff]
    constructor
    · norm_num
    · norm_num
  have hraw : rawShares 17 [1, 1, 1] = [17 / 3, 17 / 3, 17 / 3] := by
    rw [rawShares]
    norm_num [effWeights]
  have hgf : groupFloor 17 [1, 1, 1] = [5, 5, 5] := by
    rw [groupFloor, hraw]
    simp [hfl]
  have hrem : allocRemainder 17 [1, 1, 1] = 2 := by
    rw [allocRemainder, hgf]
    norm_num
  have hfr : fracParts 17 [1, 1, 1] = [(0, 2 / 3), (1, 2 / 3), (2, 2 / 3)] := by
    rw [fracParts, hraw]
    simp only [List.enum, List.enumFrom, List.map_cons, List.map_nil, hfl]
    norm_num
  have hord : allocOrder 17 [1, 1, 1] = [0, 1, 2] := by
    rw [allocOrder, hfr]
    norm_num [sortDesc, insertDesc]
  rw [allocateGroupPoints, hrem, hord, hgf]
  norm_num [List.foldl, bumpAt]

/-- C2: largest-remainder allocation — for every positive budget `P` and
non-empty weight list, the allocations sum exactly to `P`, every group gets
at least the floor of its raw share, and the spec's worked example
(weights `[1,1,1]`, `P = 17`) yields `[6,6,5]` with the two leftover points
going to the tied groups of lowest index. -/
theorem largest_remainder_allocation (P : ℕ) (weights : List ℕ)
    (hne : weights ≠ []) (hP : 0 < P) :
    (allocateGroupPoints P weights).sum = (P : ℤ) ∧
    (∀ i, i < weights.length →
      ⌊(rawShares P weights).getD i 0⌋ ≤ (allocateGroupPoints P weights).getD i 0) ∧
    allocateGroupPoints 17 [1, 1, 1] = [6, 6, 5] := by
  have hrem0 := allocRemainder_nonneg P weights hne
  have hremlt := allocRemainder_lt_len P weights hne
  have hlen := allocOrder_length P weights
  have hk : min (allocRemainder P weights).toNat (allocOrder P weights).length =
      (allocRemainder P weights).toNat := by
    rw [hlen]
    omega
  have halloc : allocateGroupPoints P weights =
      ((allocOrder P weights).take (allocRemainder P weights).toNat).foldl bumpAt
        (groupFloor P weights) := by
    rw [allocateGroupPoints]
    simp only [hk]
    rw [Int.toNat_of_nonneg hrem0]
    simp
  have htakelen : ((allocOrder P weights).take (allocRemainder P weights).toNat).length =
      (allocRemainder P weights).toNat := by
    rw [List.length_take, hlen]
    omega
  refine ⟨?_, ?_, allocate_17_111⟩
  · rw [halloc, foldl_bumpAt_sum]
    · rw [htakelen]
      have hr : allocRemainder P weights = (P : ℤ) - (groupFloor P weights).sum := rfl
      omega
    · intro i hi
      rw [groupFloor_length]
      exact allocOrder_mem_lt P weights i (List.mem_of_mem_take hi)
  · intro i hi
    rw [halloc]
    have h1 : (groupFloor P weights).getD i 0 = ⌊(rawShares P weights).getD i 0⌋ := by
      rw [groupFloor]
      rw [show ((rawShares P weights).map Int.floor).getD i 0 =
        ((rawShares P weights).map Int.floor).getD i ⌊(0 : ℚ)⌋ from by norm_num]
      exact List.getD_map _ _ _
    rw [← h1]
    exact foldl_bumpAt_getD_le _ _ i
/-- C2 witness: the allocation invariants at the spec's example input. -/
theorem largest_remainder_allocation_witness :
    (allocateGroupPoints 17 [1, 1, 1]).sum = (17 : ℤ) :=
  (largest_remainder_allocation 17 [1, 1, 1] (by decide) (by decide)).1

/-! ## Lemmas about the proctoring routes -/

theorem processSection_preserves (db : DB) (ad : AnswersDict) (st : Attempt)
    (e : String × Option Section) :
    (processSection db ad st e).student_id = st.student_id ∧
    (processSection db ad st e).test_id = st.test_id ∧
    (processSection db ad st e).start_time = st.start_time ∧
    (processSection db ad st e).tab_switches_count = st.tab_switches_count ∧
    (processSection db ad st e).fullscreen_violated = st.fullscreen_violated ∧
    (processSection db ad st e).submitted = st.submitted ∧
    (processSection db ad st e).submitted_at = st.submitted_at := by
  rw [processSection]
  split <;> exact ⟨rfl, rfl, rfl, rfl, rfl, rfl, rfl⟩

theorem foldl_processSection_preserves (db : DB) (ad : AnswersDict)
    (smap : List (String × Option Section)) (st : Attempt) :
    (smap.foldl (processSection db ad) st).student_id = st.student_id ∧
    (smap.foldl (processSection db ad) st).test_id = st.test_id ∧
    (smap.foldl (processSection db ad) st).start_time = st.start_time ∧
    (smap.foldl (processSection db ad) st).tab_switches_count = st.tab_switches_count ∧
    (smap.foldl (processSection db ad) st).fullscreen_violated = st.fullscreen_violated ∧
    (smap.foldl (processSection db ad) st).submitted = st.submitted ∧
    (smap.foldl (processSection db ad) st).submitted_at = st.submitted_at := by
  induction smap generalizing st with
  | nil => exact ⟨rfl, rfl, rfl, rfl, rfl, rfl, rfl⟩
  | cons e smap ih =>
    rw [List.foldl_cons]
    obtain ⟨h1, h2, h3, h4, h5, h6, h7⟩ := ih (processSection db ad st e)
    obtain ⟨g1, g2, g3, g4, g5, g6, g7⟩ := processSection_preserves db ad st e
    exact ⟨h1.trans g1, h2.trans g2, h3.trans g3, h4.trans g4, h5.trans g5,
      h6.trans g6, h7.trans g7⟩

/-- `save_autosave` mutates only the answer lists, the marks rollups and
`last_autosave`; identity and proctoring fields pass through. -/
theorem saveAutosave_preserves (db : DB) (t : Option Test) (ad : AnswersDict)
    (now : ℕ) (a : Attempt) :
    (saveAutosave db t ad now a).student_id = a.student_id ∧
    (saveAutosave db t ad now a).test_id = a.test_id ∧
    (saveAutosave db t ad now a).start_time = a.start_time ∧
    (saveAutosave db t ad now a).tab_switches_count = a.tab_switches_count ∧
    (saveAutosave db t ad now a).fullscreen_violated = a.fullscreen_violated ∧
    (saveAutosave db t ad now a).submitted = a.submitted ∧
    (saveAutosave db t ad now a).submitted_at = a.submitted_at := by
  rw [saveAutosave]
  exact foldl_processSection_preserves db ad _ a

/-- C10: when an unsubmitted attempt's tab-switch counter reaches the
threshold 5, the tab-switch route also sets `fullscreen_violated`, although
no fullscreen-exit event was reported. -/
theorem tab_switch_threshold_sets_fullscreen (db : DB) (answers : Option AnswersDict)
    (now : ℕ) (a : Attempt) (hsub : a.submitted = false)
    (hcnt : 5 ≤ a.tab_switches_count + 1) :
    ((routeTabSwitch db answers now a).1).fullscreen_violated = true := by
  rw [routeTabSwitch]
  dsimp only
  rw [if_pos ⟨hcnt, hsub⟩]
  dsimp only
  cases answers with
  | none => rfl
  | some ans =>
    dsimp only
    by_cases hemp : ans.isEmpty
    · rw [if_pos hemp]
    · rw [if_neg hemp]
      cases hfind : db.tests.find? (fun (t : Test) => t.id == a.test_id) with
      | none =>
        dsimp only
        rw [(saveAutosave_preserves db none ans now _).2.2.2.2.1]
      | some t =>
        dsimp only
        rw [(saveAutosave_preserves db (some t) ans now _).2.2.2.2.1]

theorem routeTabSwitch_below (db : DB) (now : ℕ) (a : Attempt)
    (h : a.tab_switches_count + 1 < 5) :
    (routeTabSwitch db none now a).1 =
      { a with tab_switches_count := a.tab_switches_count + 1,
               last_autosave := some now } := by
  rw [routeTabSwitch]
  dsimp only
  rw [if_neg (fun hc => absurd hc.1 (by omega))]

/-- C1 counterexample: a tab-switch call on an already-submitted attempt
still mutates it — the counter is incremented unconditionally, so
"no event after `submitted` may mutate the attempt" fails. -/
theorem submitted_attempt_tab_switch_mutates :
    ((routeTabSwitch (DB.mk [] [] [] [] [] []) none 1
        (Attempt.mk "s" "t" none [] [] 0 5 true 0 none true (some 0))).1
      ).tab_switches_count = 6 ∧
    (Attempt.mk "s" "t" none [] [] 0 5 true 0 none true
        (some 0)).tab_switches_count = 5 ∧
    (routeTabSwitch (DB.mk [] [] [] [] [] []) none 1
        (Attempt.mk "s" "t" none [] [] 0 5 true 0 none true (some 0))).1 ≠
      Attempt.mk "s" "t" none [] [] 0 5 true 0 none true (some 0) := by
  refine ⟨rfl, rfl, fun hc =>
    absurd (congrArg Attempt.tab_switches_count hc) (by decide)⟩

/-- C1 amended: reaching the tab-switch threshold 5 (or a reported
fullscreen violation) on a not-yet-submitted attempt force-submits it, and
the 5th of five successive tab-switch calls flips `submitted` from false to
true; the `submitted` flag stays true under further tab-switch, autosave and
re-submit operations — but the transition is not protected: a tab-switch
call on a submitted attempt still increments the counter (see the
counterexample), so later events can still mutate the attempt. -/
theorem forced_submission_behaviour :
    (∀ (db : DB) (answers : Option AnswersDict) (now : ℕ) (a : Attempt),
        a.submitted = false → 5 ≤ a.tab_switches_count + 1 →
        ((routeTabSwitch db answers now a).1).submitted = true) ∧
    (∀ (db : DB) (answers : Option AnswersDict) (now : ℕ) (a : Attempt),
        a.submitted = false →
        (routeFullscreenViolation db answers now a).submitted = true) ∧
    (∀ (db : DB) (answers : Option AnswersDict) (now : ℕ) (a : Attempt),
        a.submitted = true →
        ((routeTabSwitch db answers now a).1).submitted = true ∧
        ((routeTabSwitch db answers now a).1).tab_switches_count =
          a.tab_switches_count + 1) ∧
    (∀ (db : DB) (t : Option Test) (ad : AnswersDict) (now : ℕ) (a : Attempt),
        (saveAutosave db t ad now a).submitted = a.submitted) ∧
    (∀ (db : DB) (t : Test) (ad : AnswersDict) (now : ℕ) (a : Attempt),
        (routeSubmitTest db t ad now a).submitted = true) ∧
    (∀ (db : DB) (now : ℕ) (a : Attempt),
        a.submitted = false → a.tab_switches_count = 0 →
        ((routeTabSwitch db none now
            (routeTabSwitch db none now
              (routeTabSwitch db none now
                (routeTabSwitch db none now a).1).1).1).1).submitted = false ∧
        ((routeTabSwitch db none now
            (routeTabSwitch db none now
              (routeTabSwitch db none now
                (routeTabSwitch db none now
                  (routeTabSwitch db none now a).1).1).1).1).1).submitted = true) := by
  refine ⟨?_, ?_, ?_, ?_, ?_, ?_⟩
  · intro db answers now a hsub hcnt
    rw [routeTabSwitch]
    dsimp only
    rw [if_pos ⟨hcnt, hsub⟩]
  · intro db answers now a hsub
    rw [routeFullscreenViolation.eq_def]
    dsimp only
    cases answers with
    | none =>
      dsimp only
      rw [if_pos hsub]
    | some ans =>
      dsimp only
      by_cases hemp : ans.isEmpty
      · rw [if_pos hemp, if_pos hsub]
      · rw [if_neg hemp]
        cases hfind : db.tests.find? (fun (t : Test) => t.id == a.test_id) with
        | none =>
          dsimp only
          rw [if_pos (by
            rw [(saveAutosave_preserves db none ans now _).2.2.2.2.2.1]
            exact hsub)]
        | some t =>
          dsimp only
          rw [if_pos (by
            rw [(saveAutosave_preserves db (some t) ans now _).2.2.2.2.2.1]
            exact hsub)]
  · intro db answers now a hsub
    rw [routeTabSwitch]
    dsimp only
    rw [if_neg (fun hc => by rw [hsub] at hc; exact Bool.noConfusion hc.2)]
    exact ⟨hsub, rfl⟩
  · intro db t ad now a
    exact (saveAutosave_preserves db t ad now a).2.2.2.2.2.1
  · intro db t ad now a
    rfl
  · intro db now a hsub hcnt
    have s1 := routeTabSwitch_below db now a
      (by omega)
    rw [s1]
    have s2 := routeTabSwitch_below db now
      { a with tab_switches_count := a.tab_switches_count + 1,
               last_autosave := some now }
      (by show a.tab_switches_count + 1 + 1 < 5; omega)
    rw [s2]
    dsimp only
    have s3 := routeTabSwitch_below db now
      { a with tab_switches_count := a.tab_switches_count + 1 + 1,
               last_autosave := some now }
      (by show a.tab_switches_count + 1 + 1 + 1 < 5; omega)
    rw [s3]
    dsimp only
    have s4 := routeTabSwitch_below db now
      { a with tab_switches_count := a.tab_switches_count + 1 + 1 + 1,
               last_autosave := some now }
      (by show a.tab_switches_count + 1 + 1 + 1 + 1 < 5; omega)
    rw [s4]
    dsimp only
    refine ⟨hsub, ?_⟩
    rw [routeTabSwitch]
    dsimp only
    rw [if_pos ⟨by show 5 ≤ a.tab_switches_count + 1 + 1 + 1 + 1 + 1; omega,
      by show a.submitted = false; exact hsub⟩]

/-- C1 amended-claim witness: an unsubmitted attempt at 4 prior tab switches
is submitted by the 5th call. -/
theorem forced_submission_behaviour_witness :
    ((routeTabSwitch (DB.mk [] [] [] [] [] []) none 1
        (Attempt.mk "s" "t" none [] [] 0 4 false 0 none false none)).1
      ).submitted = true :=
  forced_submission_behaviour.1 (DB.mk [] [] [] [] [] []) none 1
    (Attempt.mk "s" "t" none [] [] 0 4 false 0 none false none) rfl (by decide)

/-- C10 witness: the forced submission at the threshold also raises the
fullscreen flag on an attempt that never reported a fullscreen exit. -/
theorem tab_switch_threshold_sets_fullscreen_witness :
    ((routeTabSwitch (DB.mk [] [] [] [] [] []) none 2
        (Attempt.mk "s2" "t2" none [] [] 0 7 false 0 none false none)).1
      ).fullscreen_violated = true :=
  tab_switch_threshold_sets_fullscreen (DB.mk [] [] [] [] [] []) none 2
    (Attempt.mk "s2" "t2" none [] [] 0 7 false 0 none false none) rfl (by decide)

/-! ## Lemmas about the keyed find/replace/append combinators -/

theorem findByKey_nil {α : Type} (key : α → String) (k : String) :
    findByKey key k ([] : List α) = none := rfl

theorem findByKey_cons {α : Type} (key : α → String) (k : String) (x : α)
    (l : List α) :
    findByKey key k (x :: l) =
      (if key x == k then some x else findByKey key k l) := by
  cases hkx : (key x == k) with
  | true => simp [findByKey, List.find?, hkx]
  | false => simp [findByKey, List.find?, hkx]

theorem findByKey_replace_self {α : Type} (key : α → String) (k : String)
    (f : α → α) (l : List α) (hf : ∀ x, key (f x) = key x) (a : α)
    (ha : findByKey key k l = some a) :
    findByKey key k (replaceByKey key k f l) = some (f a) := by
  induction l with
  | nil => simp [findByKey_nil] at ha
  | cons x xs ih =>
    rw [findByKey_cons] at ha
    rw [replaceByKey]
    cases hx : (key x == k) with
    | true =>
      rw [hx] at ha
      simp only [if_true] at ha
      rw [if_pos rfl, findByKey_cons, ← Option.some.inj ha]
      rw [if_pos (by rw [hf]; exact hx)]
    | false =>
      rw [hx] at ha
      simp only [Bool.false_eq_true, if_false] at ha
      rw [if_neg (by simp), findByKey_cons, if_neg (by rw [hx]; exact Bool.noConfusion)]
      exact ih ha

theorem findByKey_replace_other {α : Type} (key : α → String) (k k' : String)
    (f : α → α) (l : List α) (hf : ∀ x, key (f x) = key x) (hne : k' ≠ k) :
    findByKey key k (replaceByKey key k' f l) = findByKey key k l := by
  induction l with
  | nil => rfl
  | cons x xs ih =>
    rw [replaceByKey]
    cases hx : (key x == k') with
    | true =>
      have hxk : (key x == k) = false := by
        cases hxk : (key x == k) with
        | true =>
          have h1 : key x = k := beq_iff_eq.mp hxk
          have h2 : key x = k' := beq_iff_eq.mp hx
          exact absurd (h2.symm.trans h1) hne
        | false => rfl
      rw [if_pos rfl, findByKey_cons, findByKey_cons]
      have hk : (key (f x) == k) = false := by rw [hf]; exact hxk
      rw [hk, hxk]
      simp
    | false =>
      rw [if_neg (by simp), findByKey_cons, findByKey_cons]
      cases hxk : (key x == k) with
      | true => rfl
      | false =>
        simp only [Bool.false_eq_true, if_false]
        exact ih

theorem findByKey_append_some {α : Type} (key : α → String) (k : String)
    (l : List α) (x : α) (a : α) (ha : findByKey key k l = some a) :
    findByKey key k (l ++ [x]) = some a := by
  induction l with
  | nil => simp [findByKey_nil] at ha
  | cons y ys ih =>
    rw [findByKey_cons] at ha
    rw [List.cons_append, findByKey_cons]
    cases hy : (key y == k) with
    | true =>
      rw [hy] at ha
      simpa using ha
    | false =>
      rw [hy] at ha
      simp only [Bool.false_eq_true, if_false] at ha ⊢
      exact ih ha

theorem findByKey_append_none {α : Type} (key : α → String) (k : String)
    (l : List α) (x : α) (ha : findByKey key k l = none) :
    findByKey key k (l ++ [x]) = (if key x == k then some x else none) := by
  induction l with
  | nil =>
    rw [List.nil_append, findByKey_cons, findByKey_nil]
  | cons y ys ih =>
    rw [findByKey_cons] at ha
    cases hy : (key y == k) with
    | true =>
      rw [hy] at ha
      simp at ha
    | false =>
      rw [hy] at ha
      simp only [Bool.false_eq_true, if_false] at ha
      rw [List.cons_append, findByKey_cons, hy]
      simp only [Bool.false_eq_true, if_false]
      exact ih ha

theorem replaceByKey_id {α : Type} (key : α → String) (k : String)
    (f : α → α) (l : List α) (a : α) (ha : findByKey key k l = some a)
    (hfa : f a = a) : replaceByKey key k f l = l := by
  induction l with
  | nil => rfl
  | cons x xs ih =>
    rw [findByKey_cons] at ha
    rw [replaceByKey]
    cases hx : (key x == k) with
    | true =>
      rw [hx] at ha
      simp only [if_true] at ha
      rw [if_pos rfl]
      rw [show x = a from Option.some.inj ha, hfa]
    | false =>
      rw [hx] at ha
      simp only [Bool.false_eq_true, if_false] at ha
      rw [if_neg (by simp)]
      rw [ih ha]

/-! ## Lemmas about the per-question upsert -/

theorem updAnswer_key (db : DB) (sec : Option Section)
    (incoming : List (String × QPayload)) (q : String × String)
    (a : StudentAnswer) :
    (updAnswer db sec incoming q a).question_id = a.question_id := by
  rw [updAnswer]
  split
  · rfl
  · split
    · rfl
    · split <;> rfl

theorem freshAnswer_key (db : DB) (sec : Option Section)
    (incoming : List (String × QPayload)) (q : String × String) :
    (freshAnswer db sec incoming q).question_id = q.1 := by
  rw [freshAnswer]
  split
  · rfl
  · split
    · rfl
    · split <;> rfl

theorem updAnswer_idem (db : DB) (sec : Option Section)
    (incoming : List (String × QPayload)) (q : String × String)
    (a : StudentAnswer) :
    updAnswer db sec incoming q (updAnswer db sec incoming q a) =
      updAnswer db sec incoming q a := by
  rw [updAnswer, updAnswer]
  cases hm : qMarks db sec incoming q with
  | none =>
    split
    · simp [hm]
    · split
      · simp [hm]
      · split
        · simp only [hm]
          cases hr : (resolveRearrange db sec q.1).map snapOfRearrange <;> simp
        · simp [hm]
  | some m =>
    split
    · simp [hm]
    · split
      · simp [hm]
      · split
        · simp only [hm]
          cases hr : (resolveRearrange db sec q.1).map snapOfRearrange <;> simp
        · simp [hm]

theorem updAnswer_fresh (db : DB) (sec : Option Section)
    (incoming : List (String × QPayload)) (q : String × String) :
    updAnswer db sec incoming q (freshAnswer db sec incoming q) =
      freshAnswer db sec incoming q := by
  rw [updAnswer, freshAnswer]
  cases hm : qMarks db sec incoming q with
  | none =>
    split
    · simp [hm]
    · split
      · simp [hm]
      · split
        · simp only [hm]
          cases hr : (resolveRearrange db sec q.1).map snapOfRearrange <;> simp
        · simp [hm]
  | some m =>
    split
    · simp [hm]
    · split
      · simp [hm]
      · split
        · simp only [hm]
          cases hr : (resolveRearrange db sec q.1).map snapOfRearrange <;> simp
        · simp [hm]

theorem updAnswer_marks_none (db : DB) (sec : Option Section)
    (incoming : List (String × QPayload)) (q : String × String)
    (a : StudentAnswer) (hm : qMarks db sec incoming q = none) :
    (updAnswer db sec incoming q a).marks_obtained = a.marks_obtained := by
  rw [updAnswer]
  split
  · simp [hm]
  · split
    · simp [hm]
    · split
      · simp [hm]
      · rfl

theorem processQuestion_establishes (db : DB) (sec : Option Section)
    (incoming : List (String × QPayload)) (answers : List StudentAnswer)
    (q : String × String) :
    answerDone db sec incoming q (processQuestion db sec incoming answers q) := by
  rw [processQuestion, upsertByKey]
  cases hfind : findByKey (·.question_id) q.1 answers with
  | some a =>
    refine ⟨updAnswer db sec incoming q a, ?_, updAnswer_idem db sec incoming q a⟩
    exact findByKey_replace_self _ _ _ _ (updAnswer_key db sec incoming q) a hfind
  | none =>
    refine ⟨freshAnswer db sec incoming q, ?_, updAnswer_fresh db sec incoming q⟩
    rw [findByKey_append_none _ _ _ _ hfind,
      if_pos (beq_iff_eq.mpr (freshAnswer_key db sec incoming q))]

theorem processQuestion_preserves_done (db : DB) (sec : Option Section)
    (incoming : List (String × QPayload)) (answers : List StudentAnswer)
    (q q' : String × String) (hne : q.1 ≠ q'.1)
    (hdone : answerDone db sec incoming q' answers) :
    answerDone db sec incoming q' (processQuestion db sec incoming answers q) := by
  obtain ⟨a, hfind, hupd⟩ := hdone
  rw [processQuestion, upsertByKey]
  cases hf : findByKey (·.question_id) q.1 answers with
  | some b =>
    exact ⟨a, by
      rw [findByKey_replace_other _ _ _ _ _ (updAnswer_key db sec incoming q) hne]
      exact hfind, hupd⟩
  | none =>
    exact ⟨a, findByKey_append_some _ _ _ _ a hfind, hupd⟩

theorem processQuestion_fixed (db : DB) (sec : Option Section)
    (incoming : List (String × QPayload)) (answers : List StudentAnswer)
    (q : String × String) (hdone : answerDone db sec incoming q answers) :
    processQuestion db sec incoming answers q = answers := by
  obtain ⟨a, hfind, hupd⟩ := hdone
  rw [processQuestion, upsertByKey, hfind]
  exact replaceByKey_id _ _ _ _ a hfind hupd

theorem foldl_processQuestion_preserves_done (db : DB) (sec : Option Section)
    (incoming : List (String × QPayload)) (Q : List (String × String))
    (answers : List StudentAnswer) (q : String × String)
    (hq : q.1 ∉ Q.map Prod.fst) (hdone : answerDone db sec incoming q answers) :
    answerDone db sec incoming q (Q.foldl (processQuestion db sec incoming) answers) := by
  induction Q generalizing answers with
  | nil => exact hdone
  | cons q0 Q ih =>
    rw [List.foldl_cons]
    have hne : q0.1 ≠ q.1 := by
      intro hc
      exact hq (by rw [List.map_cons]; exact List.mem_cons.mpr (Or.inl hc.symm))
    have hqtail : q.1 ∉ Q.map Prod.fst := fun hc =>
      hq (by rw [List.map_cons]; exact List.mem_cons.mpr (Or.inr hc))
    exact ih (processQuestion db sec incoming answers q0) hqtail
      (processQuestion_preserves_done db sec incoming answers q0 q hne hdone)

theorem foldl_processQuestion_done (db : DB) (sec : Option Section)
    (incoming : List (String × QPayload)) (Q : List (String × String))
    (answers : List StudentAnswer) (hnd : (Q.map Prod.fst).Nodup) :
    ∀ q ∈ Q, answerDone db sec incoming q
      (Q.foldl (processQuestion db sec incoming) answers) := by
  induction Q generalizing answers with
  | nil => intro q hq; exact absurd hq (List.not_mem_nil q)
  | cons q0 Q ih =>
    rw [List.map_cons, List.nodup_cons] at hnd
    intro q hq
    rw [List.foldl_cons]
    rcases List.mem_cons.mp hq with h | h
    · rw [h]
      exact foldl_processQuestion_preserves_done db sec incoming Q _ q0
        (h ▸ hnd.1) (processQuestion_establishes db sec incoming answers q0)
    · exact ih _ hnd.2 q h

theorem foldl_processQuestion_fixed (db : DB) (sec : Option Section)
    (incoming : List (String × QPayload)) (Q : List (String × String))
    (answers : List StudentAnswer)
    (hall : ∀ q ∈ Q, answerDone db sec incoming q answers) :
    Q.foldl (processQuestion db sec incoming) answers = answers := by
  induction Q with
  | nil => rfl
  | cons q0 Q ih =>
    rw [List.foldl_cons,
      processQuestion_fixed db sec incoming answers q0 (hall q0 (List.mem_cons_self q0 Q))]
    exact ih (fun q hq => hall q (List.mem_cons.mpr (Or.inr hq)))

theorem processWrapper_key (db : DB) (sec : Option Section)
    (incoming : List (String × QPayload)) (b : Bool) (w : SectionAnswers) :
    (processWrapper db sec incoming b w).section_id = w.section_id := by
  rw [processWrapper.eq_def]
  cases b with
  | true => rfl
  | false => cases sec <;> rfl

theorem processWrapper_synced (db : DB) (sec : Option Section)
    (incoming : List (String × QPayload)) (b : Bool) (w : SectionAnswers)
    (hnd : ((sectionQuestionIds sec incoming).map Prod.fst).Nodup)
    (hname : b = true → ∀ s, sec = some s →
      w.section_name = some s.name ∧ w.section_duration = s.duration) :
    wrapperSynced db sec incoming (processWrapper db sec incoming b w) := by
  rw [processWrapper.eq_def, wrapperSynced]
  cases b with
  | true =>
    dsimp only
    refine ⟨fun s hs => hname rfl s hs, rfl, rfl, ?_⟩
    intro q hq
    exact foldl_processQuestion_done db sec incoming _ _ hnd q hq
  | false =>
    cases sec with
    | none =>
      dsimp only
      refine ⟨fun s hs => Option.noConfusion hs, rfl, rfl, ?_⟩
      intro q hq
      exact foldl_processQuestion_done db none incoming _ _ hnd q hq
    | some s0 =>
      dsimp only
      refine ⟨fun s hs => by rw [← Option.some.inj hs]; exact ⟨rfl, rfl⟩, rfl, rfl, ?_⟩
      intro q hq
      exact foldl_processQuestion_done db (some s0) incoming _ _ hnd q hq

theorem processWrapper_fixed (db : DB) (sec : Option Section)
    (incoming : List (String × QPayload)) (w : SectionAnswers)
    (hs : wrapperSynced db sec incoming w) :
    processWrapper db sec incoming false w = w := by
  obtain ⟨hname, hmax, htot, hdone⟩ := hs
  rw [processWrapper.eq_def]
  cases sec with
  | none =>
    dsimp only
    simp only [Bool.false_eq_true, if_false]
    rw [foldl_processQuestion_fixed db none incoming _ _ hdone, ← hmax, ← htot]
  | some s =>
    obtain ⟨hn, hd⟩ := hname s rfl
    dsimp only
    simp only [Bool.false_eq_true, if_false]
    rw [← hn, ← hd]
    rw [foldl_processQuestion_fixed db (some s) incoming _ _ hdone, ← hmax, ← htot]
theorem processSection_lists (db : DB) (ad : AnswersDict) (st : Attempt)
    (e : String × Option Section) :
    (processSection db ad st e).timed_section_answers =
      (if targetIsTimed e.2 then
        (match findByKey (fun w => w.section_id) e.1 st.timed_section_answers with
         | some _ => replaceByKey (fun w => w.section_id) e.1
             (processWrapper db e.2 ((lookupA ad e.1).getD []) false)
             st.timed_section_answers
         | none => st.timed_section_answers ++
             [processWrapper db e.2 ((lookupA ad e.1).getD []) true
               (freshWrapper e.1 e.2)])
       else st.timed_section_answers) ∧
    (processSection db ad st e).open_section_answers =
      (if targetIsTimed e.2 then st.open_section_answers
       else
        (match findByKey (fun w => w.section_id) e.1 st.open_section_answers with
         | some _ => replaceByKey (fun w => w.section_id) e.1
             (processWrapper db e.2 ((lookupA ad e.1).getD []) false)
             st.open_section_answers
         | none => st.open_section_answers ++
             [processWrapper db e.2 ((lookupA ad e.1).getD []) true
               (freshWrapper e.1 e.2)])) := by
  rw [processSection]
  cases ht : targetIsTimed e.2 with
  | true =>
    simp only [eq_self_iff_true, if_true]
    exact ⟨trivial, trivial⟩
  | false =>
    simp only [Bool.false_eq_true, if_false]
    exact ⟨trivial, trivial⟩

theorem findByKey_append_ne {α : Type} (key : α → String) (k : String)
    (l : List α) (x : α) (hx : (key x == k) = false) :
    findByKey key k (l ++ [x]) = findByKey key k l := by
  cases hf : findByKey key k l with
  | some a => exact findByKey_append_some key k l x a hf
  | none =>
    rw [findByKey_append_none key k l x hf, hx]
    simp

theorem freshWrapper_name (sid : String) (sec : Option Section) (s : Section)
    (hs : sec = some s) :
    (freshWrapper sid sec).section_name = some s.name ∧
    (freshWrapper sid sec).section_duration = s.duration := by
  rw [freshWrapper, hs]
  exact ⟨rfl, rfl⟩

theorem processSection_synced (db : DB) (ad : AnswersDict) (st : Attempt)
    (e : String × Option Section)
    (hnd : ((sectionQuestionIds e.2 ((lookupA ad e.1).getD [])).map Prod.fst).Nodup) :
    sectionSynced db ad (processSection db ad st e) e := by
  obtain ⟨hT, hO⟩ := processSection_lists db ad st e
  rw [sectionSynced]
  cases ht : targetIsTimed e.2 with
  | true =>
    rw [ht] at hT
    simp only [if_true] at hT
    rw [if_pos rfl, hT]
    cases hf : findByKey (fun w => w.section_id) e.1 st.timed_section_answers with
    | some w0 =>
      refine ⟨processWrapper db e.2 ((lookupA ad e.1).getD []) false w0, ?_, ?_⟩
      · exact findByKey_replace_self _ _ _ _
          (processWrapper_key db e.2 ((lookupA ad e.1).getD []) false) w0 hf
      · exact processWrapper_synced db e.2 _ false w0 hnd
          (fun hb => Bool.noConfusion hb)
    | none =>
      refine ⟨processWrapper db e.2 ((lookupA ad e.1).getD []) true
          (freshWrapper e.1 e.2), ?_, ?_⟩
      · have hkey : ((processWrapper db e.2 ((lookupA ad e.1).getD []) true
            (freshWrapper e.1 e.2)).section_id == e.1) = true :=
          beq_iff_eq.mpr ((processWrapper_key db e.2 _ true _).trans rfl)
        rw [findByKey_append_none _ _ _ _ hf, if_pos hkey]
      · exact processWrapper_synced db e.2 _ true (freshWrapper e.1 e.2) hnd
          (fun _ s hs => freshWrapper_name e.1 e.2 s hs)
  | false =>
    rw [ht] at hO
    simp only [Bool.false_eq_true, if_false] at hO
    simp only [Bool.false_eq_true, if_false]
    rw [hO]
    cases hf : findByKey (fun w => w.section_id) e.1 st.open_section_answers with
    | some w0 =>
      refine ⟨processWrapper db e.2 ((lookupA ad e.1).getD []) false w0, ?_, ?_⟩
      · exact findByKey_replace_self _ _ _ _
          (processWrapper_key db e.2 ((lookupA ad e.1).getD []) false) w0 hf
      · exact processWrapper_synced db e.2 _ false w0 hnd
          (fun hb => Bool.noConfusion hb)
    | none =>
      refine ⟨processWrapper db e.2 ((lookupA ad e.1).getD []) true
          (freshWrapper e.1 e.2), ?_, ?_⟩
      · have hkey : ((processWrapper db e.2 ((lookupA ad e.1).getD []) true
            (freshWrapper e.1 e.2)).section_id == e.1) = true :=
          beq_iff_eq.mpr ((processWrapper_key db e.2 _ true _).trans rfl)
        rw [findByKey_append_none _ _ _ _ hf, if_pos hkey]
      · exact processWrapper_synced db e.2 _ true (freshWrapper e.1 e.2) hnd
          (fun _ s hs => freshWrapper_name e.1 e.2 s hs)

theorem processSection_frame (db : DB) (ad : AnswersDict) (st : Attempt)
    (e' e : String × Option Section) (hne : e'.1 ≠ e.1) :
    findByKey (fun w => w.section_id) e.1
        (if targetIsTimed e.2 then (processSection db ad st e').timed_section_answers
         else (processSection db ad st e').open_section_answers) =
      findByKey (fun w => w.section_id) e.1
        (if targetIsTimed e.2 then st.timed_section_answers
         else st.open_section_answers) := by
  obtain ⟨hT, hO⟩ := processSection_lists db ad st e'
  have hstep : ∀ (l : List SectionAnswers),
      findByKey (fun w => w.section_id) e.1
        (match findByKey (fun w => w.section_id) e'.1 l with
         | some _ => replaceByKey (fun w => w.section_id) e'.1
             (processWrapper db e'.2 ((lookupA ad e'.1).getD []) false) l
         | none => l ++ [processWrapper db e'.2 ((lookupA ad e'.1).getD []) true
             (freshWrapper e'.1 e'.2)]) =
      findByKey (fun w => w.section_id) e.1 l := by
    intro l
    cases hf : findByKey (fun w => w.section_id) e'.1 l with
    | some w0 =>
      exact findByKey_replace_other _ _ _ _ _
        (processWrapper_key db e'.2 ((lookupA ad e'.1).getD []) false) hne
    | none =>
      refine findByKey_append_ne _ _ _ _ ?_
      rw [(processWrapper_key db e'.2 _ true _).trans rfl]
      exact beq_eq_false_iff_ne.mpr hne
  cases ht : targetIsTimed e.2 with
  | true =>
    simp only [if_true]
    rw [hT]
    cases ht' : targetIsTimed e'.2 with
    | true =>
      simp only [if_true]
      exact hstep st.timed_section_answers
    | false =>
      simp only [Bool.false_eq_true, if_false]
  | false =>
    simp only [Bool.false_eq_true, if_false]
    rw [hO]
    cases ht' : targetIsTimed e'.2 with
    | true =>
      simp only [if_true]
    | false =>
      simp only [Bool.false_eq_true, if_false]
      exact hstep st.open_section_answers

theorem processSection_fixed (db : DB) (ad : AnswersDict) (st : Attempt)
    (e : String × Option Section) (hs : sectionSynced db ad st e) :
    processSection db ad st e = st := by
  obtain ⟨w, hfind, hsync⟩ := hs
  have hfix := processWrapper_fixed db e.2 ((lookupA ad e.1).getD []) w hsync
  rw [processSection]
  cases ht : targetIsTimed e.2 with
  | true =>
    rw [ht] at hfind
    simp only [if_true] at hfind
    simp only [eq_self_iff_true, if_true]
    rw [hfind]
    rw [replaceByKey_id _ _ _ _ w hfind hfix]
  | false =>
    rw [ht] at hfind
    simp only [Bool.false_eq_true, if_false] at hfind
    simp only [Bool.false_eq_true, if_false]
    rw [hfind]
    rw [replaceByKey_id _ _ _ _ w hfind hfix]

theorem mapInsertOrSet_keys (m : List (String × Option Section)) (k : String)
    (v : Option Section) (hany : m.any (fun p => p.1 == k) = true) :
    (mapInsertOrSet m k v).map Prod.fst = m.map Prod.fst := by
  rw [mapInsertOrSet, if_pos hany, List.map_map]
  have : ∀ p : String × Option Section,
      (Prod.fst ∘ fun p : String × Option Section =>
        if p.1 == k then (p.1, v) else p) p = p.1 := by
    intro p
    simp only [Function.comp]
    split <;> rfl
  calc (m.map (Prod.fst ∘ fun p => if p.1 == k then (p.1, v) else p)) =
      m.map Prod.fst := List.map_congr_left (fun p _ => this p)

theorem mapInsertOrSet_nodup (m : List (String × Option Section)) (k : String)
    (v : Option Section) (h : (m.map Prod.fst).Nodup) :
    ((mapInsertOrSet m k v).map Prod.fst).Nodup := by
  cases hany : m.any (fun p => p.1 == k) with
  | true => rw [mapInsertOrSet_keys m k v hany]; exact h
  | false =>
    rw [mapInsertOrSet, if_neg (by rw [hany]; exact Bool.noConfusion)]
    rw [List.map_append]
    simp only [List.map_cons, List.map_nil]
    rw [List.nodup_append]
    refine ⟨h, List.nodup_singleton k, ?_⟩
    intro x hx hxk
    rw [List.mem_singleton] at hxk
    obtain ⟨p, hp, rfl⟩ := List.mem_map.mp hx
    have := List.any_eq_false.mp (by rw [← hany]) p hp
    exact this (by rw [hxk]; exact beq_self_eq_true k)

theorem buildSectionMap_nodup (db : DB) (t : Option Test) (ad : AnswersDict) :
    ((buildSectionMap db t ad).map Prod.fst).Nodup := by
  rw [buildSectionMap.eq_def]
  have h1 : ∀ (ss : List Section) (m : List (String × Option Section)),
      (m.map Prod.fst).Nodup →
      ((ss.foldl (fun m s => mapInsertOrSet m s.id (some s)) m).map Prod.fst).Nodup := by
    intro ss
    induction ss with
    | nil => intro m hm; exact hm
    | cons s ss ih =>
      intro m hm
      rw [List.foldl_cons]
      exact ih _ (mapInsertOrSet_nodup m s.id (some s) hm)
  have h2 : ∀ (rest : AnswersDict) (m : List (String × Option Section)),
      (m.map Prod.fst).Nodup →
      ((rest.foldl (fun m p =>
          if m.any (fun q => q.1 == p.1) then m
          else m ++ [(p.1, db.sections.find? (fun s => s.id == p.1))]) m).map
        Prod.fst).Nodup := by
    intro rest
    induction rest with
    | nil => intro m hm; exact hm
    | cons p rest ih =>
      intro m hm
      rw [List.foldl_cons]
      refine ih _ ?_
      cases hany : m.any (fun q => q.1 == p.1) with
      | true =>
        simp only [eq_self_iff_true, if_true]
        exact hm
      | false =>
        simp only [Bool.false_eq_true, if_false, List.map_append]
        simp only [List.map_cons, List.map_nil]
        rw [List.nodup_append]
        refine ⟨hm, List.nodup_singleton p.1, ?_⟩
        intro x hx hxk
        rw [List.mem_singleton] at hxk
        obtain ⟨q, hq, rfl⟩ := List.mem_map.mp hx
        have := List.any_eq_false.mp hany q hq
        exact this (by rw [hxk]; exact beq_self_eq_true p.1)
  cases t with
  | none => exact h2 ad [] (by simp)
  | some t0 => exact h2 ad _ (h1 _ [] (by simp))

theorem foldl_processSection_preserves_synced (db : DB) (ad : AnswersDict)
    (smap : List (String × Option Section)) (st : Attempt)
    (e : String × Option Section) (he : e.1 ∉ smap.map Prod.fst)
    (hs : sectionSynced db ad st e) :
    sectionSynced db ad (smap.foldl (processSection db ad) st) e := by
  induction smap generalizing st with
  | nil => exact hs
  | cons e0 rest ih =>
    rw [List.foldl_cons]
    have hne : e0.1 ≠ e.1 := by
      intro hc
      exact he (by rw [List.map_cons]; exact List.mem_cons.mpr (Or.inl hc.symm))
    have hetail : e.1 ∉ rest.map Prod.fst := fun hc =>
      he (by rw [List.map_cons]; exact List.mem_cons.mpr (Or.inr hc))
    refine ih (processSection db ad st e0) hetail ?_
    obtain ⟨w, hf, hsync⟩ := hs
    exact ⟨w, (processSection_frame db ad st e0 e hne).trans hf, hsync⟩

theorem foldl_processSection_synced (db : DB) (ad : AnswersDict)
    (smap : List (String × Option Section)) (st : Attempt)
    (hknd : (smap.map Prod.fst).Nodup)
    (hQ : ∀ e ∈ smap,
      ((sectionQuestionIds e.2 ((lookupA ad e.1).getD [])).map Prod.fst).Nodup) :
    ∀ e ∈ smap, sectionSynced db ad (smap.foldl (processSection db ad) st) e := by
  induction smap generalizing st with
  | nil => intro e he; exact absurd he (List.not_mem_nil e)
  | cons e0 rest ih =>
    rw [List.map_cons, List.nodup_cons] at hknd
    intro e he
    rw [List.foldl_cons]
    rcases List.mem_cons.mp he with h | h
    · rw [h]
      exact foldl_processSection_preserves_synced db ad rest _ e0 (h ▸ hknd.1)
        (processSection_synced db ad st e0 (hQ e0 (List.mem_cons_self e0 rest)))
    · exact ih _ hknd.2 (fun e' he' => hQ e' (List.mem_cons.mpr (Or.inr he'))) e h

theorem foldl_processSection_fixed (db : DB) (ad : AnswersDict)
    (smap : List (String × Option Section)) (st : Attempt)
    (hall : ∀ e ∈ smap, processSection db ad st e = st) :
    smap.foldl (processSection db ad) st = st := by
  induction smap with
  | nil => rfl
  | cons e0 rest ih =>
    rw [List.foldl_cons, hall e0 (List.mem_cons_self e0 rest)]
    exact ih (fun e he => hall e (List.mem_cons.mpr (Or.inr he)))

/-- C8: autosave is idempotent — a second call with the same payload leaves
both section-answer lists unchanged, reproduces the same `total_marks` and
`max_marks`, and creates no additional Answer record for any
`(section_id, question_id)` pair.  The hypothesis states that each processed
section contributes distinct question ids (dict keys are unique and a
well-formed section lists each question once). -/
theorem autosave_idempotent (db : DB) (testObj : Option Test) (ad : AnswersDict)
    (now1 now2 : ℕ) (a : Attempt)
    (hQ : ∀ e ∈ buildSectionMap db (resolveTestObj db a testObj) ad,
      ((sectionQuestionIds e.2 ((lookupA ad e.1).getD [])).map Prod.fst).Nodup) :
    (saveAutosave db testObj ad now2 (saveAutosave db testObj ad now1 a)
      ).timed_section_answers =
      (saveAutosave db testObj ad now1 a).timed_section_answers ∧
    (saveAutosave db testObj ad now2 (saveAutosave db testObj ad now1 a)
      ).open_section_answers =
      (saveAutosave db testObj ad now1 a).open_section_answers ∧
    (saveAutosave db testObj ad now2 (saveAutosave db testObj ad now1 a)
      ).total_marks = (saveAutosave db testObj ad now1 a).total_marks ∧
    (saveAutosave db testObj ad now2 (saveAutosave db testObj ad now1 a)
      ).max_marks = (saveAutosave db testObj ad now1 a).max_marks ∧
    ∀ sid qid,
      countAnswerRecords (saveAutosave db testObj ad now2
        (saveAutosave db testObj ad now1 a)) sid qid =
      countAnswerRecords (saveAutosave db testObj ad now1 a) sid qid := by
  have hpre := saveAutosave_preserves db testObj ad now1 a
  have hres : resolveTestObj db (saveAutosave db testObj ad now1 a) testObj =
      resolveTestObj db a testObj := by
    rw [resolveTestObj.eq_def, resolveTestObj.eq_def]
    cases testObj with
    | some t => rfl
    | none => rw [hpre.2.1]
  have hsync := foldl_processSection_synced db ad
    (buildSectionMap db (resolveTestObj db a testObj) ad) a
    (buildSectionMap_nodup db (resolveTestObj db a testObj) ad) hQ
  have hfix : (buildSectionMap db (resolveTestObj db a testObj) ad).foldl
      (processSection db ad) (saveAutosave db testObj ad now1 a) =
      saveAutosave db testObj ad now1 a := by
    refine foldl_processSection_fixed db ad _ _
      (fun e he => processSection_fixed db ad _ e ?_)
    exact hsync e he
  have ha2 : saveAutosave db testObj ad now2 (saveAutosave db testObj ad now1 a) =
      { saveAutosave db testObj ad now1 a with
        last_autosave := some now2,
        total_marks := totalMarksObtained (saveAutosave db testObj ad now1 a),
        max_marks := maxMarksPossible (saveAutosave db testObj ad now1 a) } := by
    rw [saveAutosave]
    rw [hres, hfix]
  rw [ha2]
  have htot : totalMarksObtained (saveAutosave db testObj ad now1 a) =
      (saveAutosave db testObj ad now1 a).total_marks := rfl
  have hmax : maxMarksPossible (saveAutosave db testObj ad now1 a) =
      (saveAutosave db testObj ad now1 a).max_marks := rfl
  refine ⟨rfl, rfl, htot, hmax, ?_⟩
  intro sid qid
  rfl

/-- C8 witness: a second identical autosave reproduces `total_marks` on a
concrete attempt and payload. -/
theorem autosave_idempotent_witness :
    (saveAutosave (DB.mk [] [] [] [] [] []) none
        [("s1", [("q1", QPayload.mk (some (Json.str "A")) (some "mcq") none)])] 2
        (saveAutosave (DB.mk [] [] [] [] [] []) none
          [("s1", [("q1", QPayload.mk (some (Json.str "A")) (some "mcq") none)])] 1
          (Attempt.mk "stu" "tst" none [] [] 0 0 false 0 none false none))
      ).total_marks =
    (saveAutosave (DB.mk [] [] [] [] [] []) none
        [("s1", [("q1", QPayload.mk (some (Json.str "A")) (some "mcq") none)])] 1
        (Attempt.mk "stu" "tst" none [] [] 0 0 false 0 none false none)
      ).total_marks :=
  (autosave_idempotent (DB.mk [] [] [] [] [] []) none
    [("s1", [("q1", QPayload.mk (some (Json.str "A")) (some "mcq") none)])] 1 2
    (Attempt.mk "stu" "tst" none [] [] 0 0 false 0 none false none)
    (by decide)).2.2.1

theorem processWrapper_answers (db : DB) (sec : Option Section)
    (incoming : List (String × QPayload)) (b : Bool) (w : SectionAnswers) :
    (processWrapper db sec incoming b w).answers =
      (sectionQuestionIds sec incoming).foldl
        (processQuestion db sec incoming) w.answers := by
  rw [processWrapper.eq_def]
  cases b with
  | true => rfl
  | false => cases sec <;> rfl

theorem foldl_processQuestion_marks (db : DB) (sec : Option Section)
    (incoming : List (String × QPayload)) (Q : List (String × String))
    (answers : List StudentAnswer) (qid : String) (m : ℚ)
    (hnone : ∀ q ∈ Q, q.1 = qid → qMarks db sec incoming q = none)
    (hex : ∃ b, findByKey (fun x => x.question_id) qid answers = some b ∧
      b.marks_obtained = some m) :
    ∃ b, findByKey (fun x => x.question_id) qid
        (Q.foldl (processQuestion db sec incoming) answers) = some b ∧
      b.marks_obtained = some m := by
  induction Q generalizing answers with
  | nil => exact hex
  | cons q0 Q ih =>
    rw [List.foldl_cons]
    refine ih _ (fun q hq hq1 => hnone q (List.mem_cons.mpr (Or.inr hq)) hq1) ?_
    obtain ⟨b, hfb, hmb⟩ := hex
    by_cases hk : q0.1 = qid
    · have hq0 := hnone q0 (List.mem_cons_self q0 Q) hk
      rw [processQuestion, upsertByKey, hk, hfb]
      refine ⟨updAnswer db sec incoming q0 b, ?_, ?_⟩
      · have := findByKey_replace_self (fun x : StudentAnswer => x.question_id)
          qid (updAnswer db sec incoming q0) answers
          (updAnswer_key db sec incoming q0) b hfb
        exact this
      · rw [updAnswer_marks_none db sec incoming q0 b hq0]
        exact hmb
    · rw [processQuestion, upsertByKey]
      cases hf : findByKey (fun x => x.question_id) q0.1 answers with
      | some c =>
        refine ⟨b, ?_, hmb⟩
        rw [findByKey_replace_other _ _ _ _ _ (updAnswer_key db sec incoming q0) hk]
        exact hfb
      | none =>
        exact ⟨b, findByKey_append_some _ _ _ _ b hfb, hmb⟩

theorem processSection_marks (db : DB) (ad : AnswersDict) (st : Attempt)
    (e : String × Option Section) (qid : String) (m : ℚ)
    (hnone : ∀ q ∈ sectionQuestionIds e.2 ((lookupA ad e.1).getD []),
      q.1 = qid → qMarks db e.2 ((lookupA ad e.1).getD []) q = none)
    (hex : ∃ w b, findByKey (fun w => w.section_id) e.1
        (if targetIsTimed e.2 then st.timed_section_answers
         else st.open_section_answers) = some w ∧
      findByKey (fun x => x.question_id) qid w.answers = some b ∧
      b.marks_obtained = some m) :
    ∃ w b, findByKey (fun w => w.section_id) e.1
        (if targetIsTimed e.2 then (processSection db ad st e).timed_section_answers
         else (processSection db ad st e).open_section_answers) = some w ∧
      findByKey (fun x => x.question_id) qid w.answers = some b ∧
      b.marks_obtained = some m := by
  obtain ⟨w, b, hw, hb, hmb⟩ := hex
  obtain ⟨hT, hO⟩ := processSection_lists db ad st e
  have hnext : ∃ b', findByKey (fun x => x.question_id) qid
      (processWrapper db e.2 ((lookupA ad e.1).getD []) false w).answers = some b' ∧
      b'.marks_obtained = some m := by
    rw [processWrapper_answers]
    exact foldl_processQuestion_marks db e.2 _ _ _ qid m hnone ⟨b, hb, hmb⟩
  obtain ⟨b', hb', hmb'⟩ := hnext
  cases ht : targetIsTimed e.2 with
  | true =>
    rw [ht] at hT hw
    simp only [if_true] at hT hw
    simp only [if_true]
    rw [hT, hw]
    refine ⟨processWrapper db e.2 ((lookupA ad e.1).getD []) false w, b', ?_, hb', hmb'⟩
    exact findByKey_replace_self _ _ _ _
      (processWrapper_key db e.2 ((lookupA ad e.1).getD []) false) w hw
  | false =>
    rw [ht] at hO hw
    simp only [Bool.false_eq_true, if_false] at hO hw
    simp only [Bool.false_eq_true, if_false]
    rw [hO, hw]
    refine ⟨processWrapper db e.2 ((lookupA ad e.1).getD []) false w, b', ?_, hb', hmb'⟩
    exact findByKey_replace_self _ _ _ _
      (processWrapper_key db e.2 ((lookupA ad e.1).getD []) false) w hw

theorem foldl_processSection_marks (db : DB) (ad : AnswersDict)
    (smap : List (String × Option Section)) (st : Attempt)
    (e : String × Option Section) (qid : String) (m : ℚ)
    (huniq : ∀ e0 ∈ smap, e0.1 = e.1 → e0 = e)
    (hnone : ∀ q ∈ sectionQuestionIds e.2 ((lookupA ad e.1).getD []),
      q.1 = qid → qMarks db e.2 ((lookupA ad e.1).getD []) q = none)
    (hex : ∃ w b, findByKey (fun w => w.section_id) e.1
        (if targetIsTimed e.2 then st.timed_section_answers
         else st.open_section_answers) = some w ∧
      findByKey (fun x => x.question_id) qid w.answers = some b ∧
      b.marks_obtained = some m) :
    ∃ w b, findByKey (fun w => w.section_id) e.1
        (if targetIsTimed e.2 then
          (smap.foldl (processSection db ad) st).timed_section_answers
         else (smap.foldl (processSection db ad) st).open_section_answers) = some w ∧
      findByKey (fun x => x.question_id) qid w.answers = some b ∧
      b.marks_obtained = some m := by
  induction smap generalizing st with
  | nil => exact hex
  | cons e0 rest ih =>
    rw [List.foldl_cons]
    refine ih _ (fun e1 he1 h1 => huniq e1 (List.mem_cons.mpr (Or.inr he1)) h1) ?_
    by_cases hk : e0.1 = e.1
    · have he0 : e0 = e := huniq e0 (List.mem_cons_self e0 rest) hk
      rw [he0]
      exact processSection_marks db ad st e qid m hnone hex
    · obtain ⟨w, b, hw, hb, hmb⟩ := hex
      exact ⟨w, b, (processSection_frame db ad st e0 e hk).trans hw, hb, hmb⟩

/-- C5: the autosave preservation invariant — when grading a question yields
`None` on the incoming payload, the previously stored `marks_obtained` of
the existing answer is left unchanged. -/
theorem autosave_preserves_ungraded_marks (db : DB) (testObj : Option Test)
    (ad : AnswersDict) (now : ℕ) (a : Attempt) (e : String × Option Section)
    (qid : String) (m : ℚ) (w : SectionAnswers) (ans : StudentAnswer)
    (hmem : e ∈ buildSectionMap db (resolveTestObj db a testObj) ad)
    (hw : findByKey (fun w => w.section_id) e.1
        (if targetIsTimed e.2 then a.timed_section_answers
         else a.open_section_answers) = some w)
    (ha : findByKey (fun x => x.question_id) qid w.answers = some ans)
    (hm : ans.marks_obtained = some m)
    (hnone : ∀ q ∈ sectionQuestionIds e.2 ((lookupA ad e.1).getD []),
      q.1 = qid → qMarks db e.2 ((lookupA ad e.1).getD []) q = none) :
    ∃ w' ans', findByKey (fun w => w.section_id) e.1
        (if targetIsTimed e.2 then
          (saveAutosave db testObj ad now a).timed_section_answers
         else (saveAutosave db testObj ad now a).open_section_answers) = some w' ∧
      findByKey (fun x => x.question_id) qid w'.answers = some ans' ∧
      ans'.marks_obtained = some m := by
  have huniq : ∀ e0 ∈ buildSectionMap db (resolveTestObj db a testObj) ad,
      e0.1 = e.1 → e0 = e := by
    intro e0 he0 hk
    exact List.inj_on_of_nodup_map
      (buildSectionMap_nodup db (resolveTestObj db a testObj) ad) he0 hmem hk
  exact foldl_processSection_marks db ad
    (buildSectionMap db (resolveTestObj db a testObj) ad) a e qid m huniq hnone
    ⟨w, ans, hw, ha, hm⟩

/-- C5 witness: autosaving `value = None` for a coding answer that already
has `marks_obtained = 42` leaves the stored 42 unchanged. -/
theorem autosave_preserves_ungraded_marks_witness :
    ∃ w' ans', findByKey (fun w => w.section_id) "s1"
        ((saveAutosave (DB.mk [] [] [] [] [] []) none
          [("s1", [("qc", QPayload.mk none (some "coding") none)])] 5
          (Attempt.mk "stu" "tst" none []
            [SectionAnswers.mk "s1" none 0
              [StudentAnswer.mk "qc" "coding" (Json.arr []) none none none (some 42)]
              0 42]
            42 0 false 0 none false none)).open_section_answers) = some w' ∧
      findByKey (fun x => x.question_id) "qc" w'.answers = some ans' ∧
      ans'.marks_obtained = some 42 := by
  have h := autosave_preserves_ungraded_marks (DB.mk [] [] [] [] [] []) none
    [("s1", [("qc", QPayload.mk none (some "coding") none)])] 5
    (Attempt.mk "stu" "tst" none []
      [SectionAnswers.mk "s1" none 0
        [StudentAnswer.mk "qc" "coding" (Json.arr []) none none none (some 42)]
        0 42]
      42 0 false 0 none false none)
    ("s1", none) "qc" 42
    (SectionAnswers.mk "s1" none 0
      [StudentAnswer.mk "qc" "coding" (Json.arr []) none none none (some 42)] 0 42)
    (StudentAnswer.mk "qc" "coding" (Json.arr []) none none none (some 42))
    (by decide) (by decide) (by decide) (by decide) (by decide)
  exact h

end CpAdmin
